import Mathlib

/-!
Verification of the palettepal color engine (src/palettepal/palette.py).

The Python code computes with IEEE doubles; this development embeds the
same arithmetic over exact rationals (`ℚ`), with Python's `int()`
truncation and `%` modulo modelled explicitly.  String inputs are
modelled as `List Char`.
-/

set_option maxHeartbeats 1000000
set_option maxRecDepth 100000

namespace Palettepal

/-- Python `%` on numbers: `x % y = x - y * floor (x / y)` (result has the
sign of the divisor `y`; for `y > 0` it lies in `[0, y)`). -/
def pymod (x y : ℚ) : ℚ := x - y * ⌊x / y⌋

/-- Python `int()` applied to a number: truncation toward zero. -/
def pytrunc (x : ℚ) : ℤ := if 0 ≤ x then ⌊x⌋ else -⌊-x⌋

/-- `colorsys.rgb_to_hls` from the Python standard library, over exact
rationals.  Input channels are normalized to `[0,1]`; the returned triple
is `(h, l, s)` (note the order). -/
def rgb_to_hls (r g b : ℚ) : ℚ × ℚ × ℚ :=
  let maxc := max r (max g b)
  let minc := min r (min g b)
  let sumc := maxc + minc
  let rangec := maxc - minc
  let l := sumc / 2
  if minc = maxc then (0, l, 0) else
  let s := if l ≤ 1/2 then rangec / sumc else rangec / (2 - sumc)
  let rc := (maxc - r) / rangec
  let gc := (maxc - g) / rangec
  let bc := (maxc - b) / rangec
  let h := if r = maxc then bc - gc else if g = maxc then 2 + rc - bc else 4 + gc - rc
  (pymod (h / 6) 1, l, s)

/-- `colorsys._v` helper of `colorsys.hls_to_rgb`. -/
def colorsys_v (m1 m2 hue : ℚ) : ℚ :=
  let hue := pymod hue 1
  if hue < 1/6 then m1 + (m2 - m1) * hue * 6
  else if hue < 1/2 then m2
  else if hue < 2/3 then m1 + (m2 - m1) * (2/3 - hue) * 6
  else m1

/-- `colorsys.hls_to_rgb` from the Python standard library, over exact
rationals.  Arguments in the order `(h, l, s)`, all normalized. -/
def hls_to_rgb (h l s : ℚ) : ℚ × ℚ × ℚ :=
  if s = 0 then (l, l, l) else
  let m2 := if l ≤ 1/2 then l * (1 + s) else l + s - l * s
  let m1 := 2 * l - m2
  (colorsys_v m1 m2 (h + 1/3), colorsys_v m1 m2 h, colorsys_v m1 m2 (h - 1/3))

/-- The `HSL` namedtuple.  Fields are rationals because `Color` stores
(possibly fractional) transformed values in the same tuple type. -/
structure HSL where
  h : ℚ
  s : ℚ
  l : ℚ
deriving DecidableEq, Repr

/-- The `RGB` namedtuple of integer channels. -/
structure RGB where
  r : ℤ
  g : ℤ
  b : ℤ
deriving DecidableEq, Repr

/-- `palette.rgb_to_hsl`: RGB (0-255) to HSL(0-360, 0-100, 0-100), each
output rounded by adding `.5` and truncating with `int()`. -/
def rgb_to_hsl (r g b : ℤ) : HSL :=
  let hls := rgb_to_hls ((r : ℚ) / 255) ((g : ℚ) / 255) ((b : ℚ) / 255)
  ⟨((pytrunc (hls.1 * 360 + 1/2) : ℤ) : ℚ),
   ((pytrunc (hls.2.2 * 100 + 1/2) : ℤ) : ℚ),
   ((pytrunc (hls.2.1 * 100 + 1/2) : ℤ) : ℚ)⟩

/-- `palette.hsl_to_rgb`: HSL to RGB (0-255), rounded the same way.
Note the backwards order of colorsys's HLS. -/
def hsl_to_rgb (h s l : ℚ) : RGB :=
  let rgbnorm := hls_to_rgb (h / 360) (l / 100) (s / 100)
  ⟨pytrunc (rgbnorm.1 * 255 + 1/2),
   pytrunc (rgbnorm.2.1 * 255 + 1/2),
   pytrunc (rgbnorm.2.2 * 255 + 1/2)⟩

/-- Hex digits of a natural number (lowercase), most significant first;
`0` renders as `"0"`.  Matches Python's `format(n, 'x')` for `n ≥ 0`. -/
def natToHex (n : ℕ) : List Char := Nat.toDigits 16 n

/-- Zero-pad a digit string on the left to width `w`. -/
def padZero (w : ℕ) (ds : List Char) : List Char :=
  List.replicate (w - ds.length) '0' ++ ds

/-- Python `f'{n:02x}'`: two lowercase hex digits, zero-padded (for a
negative number the sign is emitted first and counts toward the width). -/
def format02x (n : ℤ) : List Char :=
  if n < 0 then '-' :: padZero 1 (natToHex n.natAbs) else padZero 2 (natToHex n.natAbs)

/-- `palette.rgb_to_hex`: `f'#{r:02x}{g:02x}{b:02x}'`. -/
def rgb_to_hex (r g b : ℤ) : List Char :=
  '#' :: (format02x r ++ format02x g ++ format02x b)

/-- Is `c` an ASCII hexadecimal digit? -/
def isHexDigitChar (c : Char) : Bool :=
  ( '0' ≤ c && c ≤ '9') || ( 'a' ≤ c && c ≤ 'f') || ( 'A' ≤ c && c ≤ 'F')

/-- Is `c` a lowercase hex digit (digit or `a`-`f`), as produced by
Python's `%x` formatting? -/
def isLowerHexDigit (c : Char) : Bool :=
  ( '0' ≤ c && c ≤ '9') || ( 'a' ≤ c && c ≤ 'f')

/-- Value of an ASCII hex digit. -/
def hexVal (c : Char) : ℤ :=
  if '0' ≤ c && c ≤ '9' then (c.toNat : ℤ) - 48
  else if 'a' ≤ c && c ≤ 'f' then (c.toNat : ℤ) - 87
  else (c.toNat : ℤ) - 55

/-- ASCII whitespace accepted by Python's `int()`. -/
def isPySpace (c : Char) : Bool :=
  c = ' ' || c = '\t' || c = '\n' || c = '\x0d' || c = '\x0b' || c = '\x0c'

/-- Digit run of Python's `int(s, 16)`: hex digits with single
underscores allowed between digits. `acc` is the value parsed so far. -/
def hexRun (acc : ℤ) : List Char → Option ℤ
  | [] => some acc
  | '_' :: c :: rest =>
      if isHexDigitChar c then hexRun (16 * acc + hexVal c) rest else none
  | c :: rest =>
      if isHexDigitChar c then hexRun (16 * acc + hexVal c) rest else none

/-- A nonempty digit run (no leading underscore). -/
def hexCore : List Char → Option ℤ
  | c :: rest => if isHexDigitChar c then hexRun (hexVal c) rest else none
  | [] => none

/-- Digit run after an explicit `0x` prefix: one leading underscore is
then permitted (`int('0x_1f', 16)` parses). -/
def hexAfterPre : List Char → Option ℤ
  | '_' :: rest => hexCore rest
  | rest => hexCore rest

/-- The unsigned body of Python's `int(s, 16)`: optional `0x`/`0X`
prefix, then digits. -/
def hexBody : List Char → Option ℤ
  | '0' :: 'x' :: rest => hexAfterPre rest
  | '0' :: 'X' :: rest => hexAfterPre rest
  | l => hexCore l

/-- Python `int(s, 16)` for ASCII strings: optional surrounding
whitespace, optional sign, optional `0x` prefix, hex digits with single
underscores between digits.  `none` models `ValueError`. -/
def pyIntHex (s : List Char) : Option ℤ :=
  let s1 := s.dropWhile isPySpace
  let s2 := (s1.reverse.dropWhile isPySpace).reverse
  match s2 with
  | '+' :: rest => hexBody rest
  | '-' :: rest => (hexBody rest).map (fun z => -z)
  | rest => hexBody rest

/-- Python slice `l[a:b]` (for `0 ≤ a ≤ b`). -/
def pySlice (l : List Char) (a b : ℕ) : List Char := (l.drop a).take (b - a)

/-- `palette.hex_to_rgb`: `color.lstrip('#')` removes every leading `#`,
then the three two-character slices are parsed with `int(·, 16)`;
`none` models the `ValueError` escaping the function. -/
def hex_to_rgb (color : List Char) : Option RGB :=
  let c := color.dropWhile (fun ch => ch = '#')
  match pyIntHex (pySlice c 0 2), pyIntHex (pySlice c 2 4), pyIntHex (pySlice c 4 6) with
  | some r, some g, some b => some ⟨r, g, b⟩
  | _, _, _ => none

/-- `palette.GOSSET_RYB_TO_RGB` (Gossett & Chen table; does not allow
for perfect blacks). -/
def GOSSET_RYB_TO_RGB : List (ℚ × ℚ × ℚ) :=
  [(1, 1, 1),
   (1, 0, 0),
   (1, 1, 0),
   (0.163, 0.373, 0.6),
   (0.5, 0, 0.5),
   (0, 0.66, 0.2),
   (1, 0.5, 0),
   (0.2, 0.094, 0)]

/-- `palette.IRISSON_RYB_TO_RGB` (Irisson table, modified to allow
perfect blacks), corners ordered 000,001,010,011,100,101,110,111. -/
def IRISSON_RYB_TO_RGB : List (ℚ × ℚ × ℚ) :=
  [(1, 1, 1),
   (0.163, 0.373, 0.6),
   (1, 1, 0),
   (0, 0.66, 0.2),
   (1, 0, 0),
   (0.5, 0.5, 0.9),
   (1, 0.5, 0),
   (0, 0, 0)]

/-- `palette.RGB_TO_RYB` (reverse-direction corner table). -/
def RGB_TO_RYB : List (ℚ × ℚ × ℚ) :=
  [(1, 1, 1),
   (0, 0, 1),
   (0, 1, 0.483),
   (0, 0.053, 0.21),
   (1, 0, 0),
   (0.309, 0, 0.469),
   (0, 1, 0),
   (0, 0, 0)]

/-- `palette.convert`: trilinear interpolation of the 8-corner `table`
at normalized `(r, y, b)`.  The Python code unpacks exactly eight rows;
a table of any other length would raise, modelled by a zero default. -/
def convert (r y b : ℚ) (table : List (ℚ × ℚ × ℚ)) : ℚ × ℚ × ℚ :=
  match table with
  | [f000, f001, f010, f011, f100, f101, f110, f111] =>
    let ri := 1 - r
    let yi := 1 - y
    let bi := 1 - b
    let c000 := ri*yi*bi
    let c001 := ri*yi*b
    let c010 := ri*y*bi
    let c011 := ri*y*b
    let c100 := r*yi*bi
    let c101 := r*yi*b
    let c110 := r*y*bi
    let c111 := r*y*b
    (c000*f000.1 + c001*f001.1 + c010*f010.1 + c011*f011.1 +
       c100*f100.1 + c101*f101.1 + c110*f110.1 + c111*f111.1,
     c000*f000.2.1 + c001*f001.2.1 + c010*f010.2.1 + c011*f011.2.1 +
       c100*f100.2.1 + c101*f101.2.1 + c110*f110.2.1 + c111*f111.2.1,
     c000*f000.2.2 + c001*f001.2.2 + c010*f010.2.2 + c011*f011.2.2 +
       c100*f100.2.2 + c101*f101.2.2 + c110*f110.2.2 + c111*f111.2.2)
  | _ => (0, 0, 0)

/-- `palette.ryb_to_rgb`: RYB (0-255) to RGB (0-255) through the
Irisson table. -/
def ryb_to_rgb (ryb : RGB) : RGB :=
  let r := (ryb.r : ℚ) / 255
  let y := (ryb.g : ℚ) / 255
  let b := (ryb.b : ℚ) / 255
  let rgb := convert r y b IRISSON_RYB_TO_RGB
  ⟨pytrunc (rgb.1 * 255 + 1/2), pytrunc (rgb.2.1 * 255 + 1/2), pytrunc (rgb.2.2 * 255 + 1/2)⟩

/-- `palette.rgb_to_ryb`: RGB (0-255) to RYB (0-255) through the
reverse table. -/
def rgb_to_ryb (rgb : RGB) : RGB :=
  let r := (rgb.r : ℚ) / 255
  let g := (rgb.g : ℚ) / 255
  let b := (rgb.b : ℚ) / 255
  let ryb := convert r g b RGB_TO_RYB
  ⟨pytrunc (ryb.1 * 255 + 1/2), pytrunc (ryb.2.1 * 255 + 1/2), pytrunc (ryb.2.2 * 255 + 1/2)⟩

/-- `palette.Color`: canonical HSL value plus the RYB-space flag. -/
structure Color where
  _hsl : HSL
  _ryb : Bool
deriving DecidableEq, Repr

/-- `Color.__init__(h, s, l, ryb)`. -/
def Color.make (h s l : ℚ) (ryb : Bool) : Color := ⟨⟨h, s, l⟩, ryb⟩

/-- `Color.hsl` property. -/
def Color.hsl (c : Color) : HSL := c._hsl

/-- `Color.rgb` property: HSL to RGB, passing through RYB conversion
when the color sits in RYB space. -/
def Color.rgb (c : Color) : RGB :=
  let rgb := hsl_to_rgb c._hsl.h c._hsl.s c._hsl.l
  if c._ryb then ryb_to_rgb rgb else rgb

/-- `Color.ryb` property. -/
def Color.ryb (c : Color) : RGB :=
  let rgb := hsl_to_rgb c._hsl.h c._hsl.s c._hsl.l
  if !c._ryb then rgb_to_ryb rgb else rgb

/-- `Color.hex` property. -/
def Color.hex (c : Color) : List Char :=
  rgb_to_hex c.rgb.r c.rgb.g c.rgb.b

/-- `Color.hslnorm` property. -/
def Color.hslnorm (c : Color) : HSL :=
  ⟨c._hsl.h / 360, c._hsl.s / 100, c._hsl.l / 100⟩

/-- `Color.hsl_rgbspace` property. -/
def Color.hsl_rgbspace (c : Color) : HSL :=
  rgb_to_hsl c.rgb.r c.rgb.g c.rgb.b

/-- `Color.from_rgb` classmethod. -/
def Color.from_rgb (r g b : ℤ) (ryb : Bool) : Color :=
  let rgb' := if ryb then rgb_to_ryb ⟨r, g, b⟩ else ⟨r, g, b⟩
  let hsl := rgb_to_hsl rgb'.r rgb'.g rgb'.b
  ⟨hsl, ryb⟩

/-- `Color.from_hex` classmethod; `none` propagates a hex parse error. -/
def Color.from_hex (color : List Char) : Option Color :=
  match hex_to_rgb color with
  | some rgb => some (Color.from_rgb rgb.r rgb.g rgb.b false)
  | none => none

/-- Modelled from the spec: the CSS-style name-to-RGB table consulted by
`Color.from_name` lives in the external `textual` package
(`textual.color.COLOR_NAME_TO_RGB`), outside this repository.  The spec
requires a fixed table of CSS names; the entry for `"red"` is the CSS
value `(255, 0, 0)`, and `"not-a-color"` has no entry. -/
def COLOR_NAME_TO_RGB : List (List Char × RGB) :=
  [( "black".toList, ⟨0, 0, 0⟩),
   ( "white".toList, ⟨255, 255, 255⟩),
   ( "red".toList, ⟨255, 0, 0⟩),
   ( "lime".toList, ⟨0, 255, 0⟩),
   ( "green".toList, ⟨0, 128, 0⟩),
   ( "blue".toList, ⟨0, 0, 255⟩),
   ( "yellow".toList, ⟨255, 255, 0⟩),
   ( "cyan".toList, ⟨0, 255, 255⟩),
   ( "magenta".toList, ⟨255, 0, 255⟩)]

/-- First-match lookup in the name table. -/
def lookupName (name : List Char) : List (List Char × RGB) → Option RGB
  | [] => none
  | (k, v) :: rest => if name = k then some v else lookupName name rest

/-- Modelled from the spec: `Color.from_name` looks the name up in the
fixed table and fails (`none`, modelling `NameNotFound`) when absent. -/
def Color.from_name (name : List Char) : Option Color :=
  match lookupName name COLOR_NAME_TO_RGB with
  | some rgb => some (Color.from_rgb rgb.r rgb.g rgb.b false)
  | none => none

/-- `Color.rotate(theta)`: hue rotation, wrapped by Python `% 360`. -/
def Color.rotate (c : Color) (theta : ℚ) : Color :=
  ⟨⟨pymod (c._hsl.h + theta) 360, c._hsl.s, c._hsl.l⟩, c._ryb⟩

/-- `Color.lighten(add, mult)`: new lightness `mult * (l + add)`,
clamped to `[0, 100]`. -/
def Color.lighten (c : Color) (add mult : ℚ) : Color :=
  ⟨⟨c._hsl.h, c._hsl.s, min (max (mult * (c._hsl.l + add)) 0) 100⟩, c._ryb⟩

/-- `Color.saturate(add, mult)`: same clamp applied to saturation. -/
def Color.saturate (c : Color) (add mult : ℚ) : Color :=
  ⟨⟨c._hsl.h, min (max (mult * (c._hsl.s + add)) 0) 100, c._hsl.l⟩, c._ryb⟩

/-- `Color.complement()`. -/
def Color.complement (c : Color) : List Color := [c.rotate 180]

/-- `Color.triad()`. -/
def Color.triad (c : Color) : List Color := [c.rotate 120, c.rotate (-120)]

/-- `Color.analagous()` (spelling as in the source). -/
def Color.analagous (c : Color) : List Color := [c.rotate 30, c.rotate (-30)]

/-- `Color.compound()`. -/
def Color.compound (c : Color) : List Color := [c.rotate 150, c.rotate (-150)]

/-- `Color.square()`. -/
def Color.square (c : Color) : List Color := [c.rotate 90, c.rotate 180, c.rotate 270]

/-- `Color.rectangle()`. -/
def Color.rectangle (c : Color) : List Color := [c.rotate 150, c.rotate 180, c.rotate 330]

/-- `Color.shades()`: `lighten(mult=.5)`, `lighten(-20)`, `lighten(20)`,
`lighten(mult=1.5)`. -/
def Color.shades (c : Color) : List Color :=
  [c.lighten 0 (1/2), c.lighten (-20) 1, c.lighten 20 1, c.lighten 0 (3/2)]

/-- The spec's acceptance predicate for `hex_to_rgb` input, stated from
the spec's words: an optional single leading `#`, then exactly six hex
digits. -/
def specSixHex (s : List Char) : Bool :=
  let c := match s with
           | '#' :: rest => rest
           | other => other
  c.length = 6 && c.all isHexDigitChar

/-- Proof device (not from the source): the piecewise-linear hue profile
of `colorsys._v`, normalized so that `_v m1 m2 t = m1 + (m2-m1) *
wfun (pymod t 1)`.  Ramps up on `[0,1/6]`, plateaus at 1 on
`[1/6,1/2]`, ramps down on `[1/2,2/3]`, and is 0 on `[2/3,1]`. -/
def wfun (u : ℚ) : ℚ := max 0 (min 1 (min (6 * u) (4 - 6 * u)))

/-! ### Basic facts about the Python modulo and truncation -/

theorem pymod_nonneg (x : ℚ) {y : ℚ} (hy : 0 < y) : 0 ≤ pymod x y := by
  have h1 : (⌊x / y⌋ : ℚ) ≤ x / y := Int.floor_le _
  have h2 : y * (⌊x / y⌋ : ℚ) ≤ y * (x / y) :=
    mul_le_mul_of_nonneg_left h1 hy.le
  have h3 : y * (x / y) = x := mul_div_cancel₀ x hy.ne'
  unfold pymod
  linarith

theorem pymod_lt (x : ℚ) {y : ℚ} (hy : 0 < y) : pymod x y < y := by
  have h1 : x / y < (⌊x / y⌋ : ℚ) + 1 := Int.lt_floor_add_one _
  have h2 : y * (x / y) < y * ((⌊x / y⌋ : ℚ) + 1) :=
    (mul_lt_mul_left hy).mpr h1
  have h3 : y * (x / y) = x := mul_div_cancel₀ x hy.ne'
  unfold pymod
  nlinarith

theorem pymod_sub_mul (x : ℚ) {y : ℚ} (hy : y ≠ 0) (n : ℤ) :
    pymod (x - y * n) y = pymod x y := by
  have h1 : (x - y * n) / y = x / y - n := by field_simp
  unfold pymod
  rw [h1, Int.floor_sub_int]
  push_cast
  ring

theorem pymod_eq_self {x y : ℚ} (h0 : 0 ≤ x) (hxy : x < y) : pymod x y = x := by
  have hy : 0 < y := lt_of_le_of_lt h0 hxy
  have : ⌊x / y⌋ = 0 := by
    rw [Int.floor_eq_zero_iff]
    constructor
    · exact div_nonneg h0 hy.le
    · rw [div_lt_one hy]; exact hxy
  unfold pymod
  rw [this]
  push_cast
  ring

theorem pytrunc_eq_floor {x : ℚ} (hx : 0 ≤ x) : pytrunc x = ⌊x⌋ := by
  unfold pytrunc
  exact if_pos hx

/-! ### C2: RYB black/white anchors -/

/-- C2: `ryb_to_rgb (0,0,0) = (255,255,255)` and
`ryb_to_rgb (255,255,255) = (0,0,0)` exactly; the all-ones corner of the
Irisson table is pure black. -/
theorem ryb_black_white_anchors :
    ryb_to_rgb ⟨0, 0, 0⟩ = ⟨255, 255, 255⟩ ∧
    ryb_to_rgb ⟨255, 255, 255⟩ = ⟨0, 0, 0⟩ ∧
    IRISSON_RYB_TO_RGB.get? 7 = some (0, 0, 0) := by
  refine ⟨?_, ?_, rfl⟩
  · norm_num [ryb_to_rgb, convert, IRISSON_RYB_TO_RGB, pytrunc, RGB.mk.injEq]
  · norm_num [ryb_to_rgb, convert, IRISSON_RYB_TO_RGB, pytrunc, RGB.mk.injEq]

/-! ### C6: hue rotation wraps and cancels -/

/-- C6: `rotate theta` lands in `[0, 360)`, and `rotate theta` followed by
`rotate (-theta)` returns the original hue reduced modulo 360 into
`[0, 360)`, exactly. -/
theorem rotate_wrap_and_cancel (c : Color) (theta : ℚ) :
    (0 ≤ (c.rotate theta).hsl.h ∧ (c.rotate theta).hsl.h < 360) ∧
    ((c.rotate theta).rotate (-theta)).hsl.h = pymod c.hsl.h 360 ∧
    0 ≤ pymod c.hsl.h 360 ∧ pymod c.hsl.h 360 < 360 := by
  have h360 : (0:ℚ) < 360 := by norm_num
  refine ⟨⟨pymod_nonneg _ h360, pymod_lt _ h360⟩, ?_, pymod_nonneg _ h360, pymod_lt _ h360⟩
  show pymod (pymod (c._hsl.h + theta) 360 + -theta) 360 = pymod c._hsl.h 360
  unfold pymod
  have h1 : c._hsl.h + theta - 360 * (⌊(c._hsl.h + theta) / 360⌋ : ℚ) + -theta =
      c._hsl.h - 360 * (⌊(c._hsl.h + theta) / 360⌋ : ℚ) := by ring
  rw [h1]
  have h2 := pymod_sub_mul c._hsl.h (y := 360) (by norm_num) ⌊(c._hsl.h + theta) / 360⌋
  unfold pymod at h2
  exact h2

/-! ### C7: lighten clamps lightness and preserves everything else -/

/-- C7: `lighten add mult` sets lightness to
`min (max (mult * (l + add)) 0) 100`, always in `[0, 100]`, preserving
hue, saturation and the RYB flag; `add = 1000` from lightness 50 gives
exactly 100 and `add = -1000` gives exactly 0. -/
theorem lighten_clamps (c : Color) (add mult : ℚ) :
    (c.lighten add mult).hsl.l = min (max (mult * (c.hsl.l + add)) 0) 100 ∧
    0 ≤ (c.lighten add mult).hsl.l ∧ (c.lighten add mult).hsl.l ≤ 100 ∧
    (c.lighten add mult).hsl.h = c.hsl.h ∧
    (c.lighten add mult).hsl.s = c.hsl.s ∧
    (c.lighten add mult)._ryb = c._ryb ∧
    ((Color.make 180 50 50 false).lighten 1000 1).hsl.l = 100 ∧
    ((Color.make 180 50 50 false).lighten (-1000) 1).hsl.l = 0 := by
  refine ⟨rfl, le_min (le_max_right _ _) (by norm_num), min_le_right _ _, rfl, rfl, rfl, ?_, ?_⟩ <;>
    norm_num [Color.make, Color.lighten, Color.hsl, max_def, min_def]

/-! ### C8: the harmony operations -/

/-- C8: each harmony returns exactly the documented ordered sequence of
rotations (complement 180; triad 120,-120; analogous 30,-30; compound
150,-150; square 90,180,270; rectangle 150,180,330 — hues mod 360) and
shades returns the four documented lightness variants in order. -/
theorem harmonies_documented (c : Color) :
    c.complement.map (fun x => x.hsl.h) = [pymod (c.hsl.h + 180) 360] ∧
    c.triad.map (fun x => x.hsl.h) =
      [pymod (c.hsl.h + 120) 360, pymod (c.hsl.h + (-120)) 360] ∧
    c.analagous.map (fun x => x.hsl.h) =
      [pymod (c.hsl.h + 30) 360, pymod (c.hsl.h + (-30)) 360] ∧
    c.compound.map (fun x => x.hsl.h) =
      [pymod (c.hsl.h + 150) 360, pymod (c.hsl.h + (-150)) 360] ∧
    c.square.map (fun x => x.hsl.h) =
      [pymod (c.hsl.h + 90) 360, pymod (c.hsl.h + 180) 360, pymod (c.hsl.h + 270) 360] ∧
    c.rectangle.map (fun x => x.hsl.h) =
      [pymod (c.hsl.h + 150) 360, pymod (c.hsl.h + 180) 360, pymod (c.hsl.h + 330) 360] ∧
    c.shades.map (fun x => x.hsl.l) =
      [min (max ((1/2) * (c.hsl.l + 0)) 0) 100,
       min (max (1 * (c.hsl.l + (-20))) 0) 100,
       min (max (1 * (c.hsl.l + 20)) 0) 100,
       min (max ((3/2) * (c.hsl.l + 0)) 0) 100] ∧
    c.complement.length = 1 ∧ c.triad.length = 2 ∧ c.analagous.length = 2 ∧
    c.compound.length = 2 ∧ c.square.length = 3 ∧ c.rectangle.length = 3 ∧
    c.shades.length = 4 :=
  ⟨rfl, rfl, rfl, rfl, rfl, rfl, rfl, rfl, rfl, rfl, rfl, rfl, rfl, rfl⟩

/-! ### C9: name lookup -/

/-- C9: `from_name` succeeds exactly on the names present in the fixed
name table; `"red"` yields the Color built from the table's
`(255, 0, 0)` entry, `"not-a-color"` fails with `NameNotFound`
(modelled by `none`). -/
theorem from_name_lookup :
    Color.from_name ( "red".toList) = some (Color.from_rgb 255 0 0 false) ∧
    Color.from_name ( "not-a-color".toList) = none ∧
    ∀ name : List Char,
      Color.from_name name = none ↔ lookupName name COLOR_NAME_TO_RGB = none := by
  refine ⟨rfl, rfl, fun name => ?_⟩
  unfold Color.from_name
  cases lookupName name COLOR_NAME_TO_RGB <;> simp

/-! ### C10: trilinear interpolation stays in range -/

theorem trilinear_mix_mem {x y z f0 f1 f2 f3 f4 f5 f6 f7 : ℚ}
    (hx0 : 0 ≤ x) (hx1 : x ≤ 1) (hy0 : 0 ≤ y) (hy1 : y ≤ 1)
    (hz0 : 0 ≤ z) (hz1 : z ≤ 1)
    (h0 : 0 ≤ f0 ∧ f0 ≤ 1) (h1 : 0 ≤ f1 ∧ f1 ≤ 1) (h2 : 0 ≤ f2 ∧ f2 ≤ 1)
    (h3 : 0 ≤ f3 ∧ f3 ≤ 1) (h4 : 0 ≤ f4 ∧ f4 ≤ 1) (h5 : 0 ≤ f5 ∧ f5 ≤ 1)
    (h6 : 0 ≤ f6 ∧ f6 ≤ 1) (h7 : 0 ≤ f7 ∧ f7 ≤ 1) :
    0 ≤ (1-x)*(1-y)*(1-z)*f0 + (1-x)*(1-y)*z*f1 + (1-x)*y*(1-z)*f2 + (1-x)*y*z*f3 +
        x*(1-y)*(1-z)*f4 + x*(1-y)*z*f5 + x*y*(1-z)*f6 + x*y*z*f7 ∧
    (1-x)*(1-y)*(1-z)*f0 + (1-x)*(1-y)*z*f1 + (1-x)*y*(1-z)*f2 + (1-x)*y*z*f3 +
        x*(1-y)*(1-z)*f4 + x*(1-y)*z*f5 + x*y*(1-z)*f6 + x*y*z*f7 ≤ 1 := by
  have hx0' : 0 ≤ 1 - x := by linarith
  have hy0' : 0 ≤ 1 - y := by linarith
  have hz0' : 0 ≤ 1 - z := by linarith
  have c0 : 0 ≤ (1-x)*(1-y)*(1-z) := mul_nonneg (mul_nonneg hx0' hy0') hz0'
  have c1 : 0 ≤ (1-x)*(1-y)*z := mul_nonneg (mul_nonneg hx0' hy0') hz0
  have c2 : 0 ≤ (1-x)*y*(1-z) := mul_nonneg (mul_nonneg hx0' hy0) hz0'
  have c3 : 0 ≤ (1-x)*y*z := mul_nonneg (mul_nonneg hx0' hy0) hz0
  have c4 : 0 ≤ x*(1-y)*(1-z) := mul_nonneg (mul_nonneg hx0 hy0') hz0'
  have c5 : 0 ≤ x*(1-y)*z := mul_nonneg (mul_nonneg hx0 hy0') hz0
  have c6 : 0 ≤ x*y*(1-z) := mul_nonneg (mul_nonneg hx0 hy0) hz0'
  have c7 : 0 ≤ x*y*z := mul_nonneg (mul_nonneg hx0 hy0) hz0
  have hsum : (1-x)*(1-y)*(1-z) + (1-x)*(1-y)*z + (1-x)*y*(1-z) + (1-x)*y*z +
      x*(1-y)*(1-z) + x*(1-y)*z + x*y*(1-z) + x*y*z = 1 := by ring
  constructor
  · have t0 := mul_nonneg c0 h0.1
    have t1 := mul_nonneg c1 h1.1
    have t2 := mul_nonneg c2 h2.1
    have t3 := mul_nonneg c3 h3.1
    have t4 := mul_nonneg c4 h4.1
    have t5 := mul_nonneg c5 h5.1
    have t6 := mul_nonneg c6 h6.1
    have t7 := mul_nonneg c7 h7.1
    linarith
  · have t0 := mul_le_of_le_one_right c0 h0.2
    have t1 := mul_le_of_le_one_right c1 h1.2
    have t2 := mul_le_of_le_one_right c2 h2.2
    have t3 := mul_le_of_le_one_right c3 h3.2
    have t4 := mul_le_of_le_one_right c4 h4.2
    have t5 := mul_le_of_le_one_right c5 h5.2
    have t6 := mul_le_of_le_one_right c6 h6.2
    have t7 := mul_le_of_le_one_right c7 h7.2
    linarith

theorem byte_of_unit_mem {v : ℚ} (h : 0 ≤ v ∧ v ≤ 1) :
    0 ≤ pytrunc (v * 255 + 1/2) ∧ pytrunc (v * 255 + 1/2) ≤ 255 := by
  obtain ⟨h0, h1⟩ := h
  have ha : (0:ℚ) ≤ v * 255 + 1/2 := by nlinarith
  rw [pytrunc_eq_floor ha]
  constructor
  · exact Int.floor_nonneg.mpr ha
  · have : v * 255 + 1/2 < (256 : ℤ) := by push_cast; nlinarith
    have h := Int.floor_lt.mpr this
    omega

theorem norm_unit_mem {n : ℤ} (h0 : 0 ≤ n) (h1 : n ≤ 255) :
    0 ≤ (n : ℚ) / 255 ∧ (n : ℚ) / 255 ≤ 1 := by
  constructor
  · positivity
  · rw [div_le_one (by norm_num)]
    exact_mod_cast h1

/-- C10: for inputs with all components in `[0, 255]`, both `ryb_to_rgb`
and `rgb_to_ryb` return components in `[0, 255]`: the eight trilinear
weights are nonnegative and sum to 1, and all corner entries of both
tables lie in `[0, 1]`, so each channel is a convex combination in
`[0, 1]` before scaling and round-half-up. -/
theorem ryb_conversions_in_range (r g b : ℤ)
    (hr0 : 0 ≤ r) (hr1 : r ≤ 255) (hg0 : 0 ≤ g) (hg1 : g ≤ 255)
    (hb0 : 0 ≤ b) (hb1 : b ≤ 255) :
    (0 ≤ (ryb_to_rgb ⟨r, g, b⟩).r ∧ (ryb_to_rgb ⟨r, g, b⟩).r ≤ 255) ∧
    (0 ≤ (ryb_to_rgb ⟨r, g, b⟩).g ∧ (ryb_to_rgb ⟨r, g, b⟩).g ≤ 255) ∧
    (0 ≤ (ryb_to_rgb ⟨r, g, b⟩).b ∧ (ryb_to_rgb ⟨r, g, b⟩).b ≤ 255) ∧
    (0 ≤ (rgb_to_ryb ⟨r, g, b⟩).r ∧ (rgb_to_ryb ⟨r, g, b⟩).r ≤ 255) ∧
    (0 ≤ (rgb_to_ryb ⟨r, g, b⟩).g ∧ (rgb_to_ryb ⟨r, g, b⟩).g ≤ 255) ∧
    (0 ≤ (rgb_to_ryb ⟨r, g, b⟩).b ∧ (rgb_to_ryb ⟨r, g, b⟩).b ≤ 255) := by
  obtain ⟨hx0, hx1⟩ := norm_unit_mem hr0 hr1
  obtain ⟨hy0, hy1⟩ := norm_unit_mem hg0 hg1
  obtain ⟨hz0, hz1⟩ := norm_unit_mem hb0 hb1
  set x : ℚ := (r : ℚ) / 255 with hxdef
  set y : ℚ := (g : ℚ) / 255 with hydef
  set z : ℚ := (b : ℚ) / 255 with hzdef
  have hiriss1 : (convert x y z IRISSON_RYB_TO_RGB).1 =
      (1-x)*(1-y)*(1-z)*1 + (1-x)*(1-y)*z*(163/1000) + (1-x)*y*(1-z)*1 + (1-x)*y*z*0 +
      x*(1-y)*(1-z)*1 + x*(1-y)*z*(1/2) + x*y*(1-z)*1 + x*y*z*0 := by
    simp only [convert, IRISSON_RYB_TO_RGB]
    norm_num
  have hiriss2 : (convert x y z IRISSON_RYB_TO_RGB).2.1 =
      (1-x)*(1-y)*(1-z)*1 + (1-x)*(1-y)*z*(373/1000) + (1-x)*y*(1-z)*1 + (1-x)*y*z*(66/100) +
      x*(1-y)*(1-z)*0 + x*(1-y)*z*(1/2) + x*y*(1-z)*(1/2) + x*y*z*0 := by
    simp only [convert, IRISSON_RYB_TO_RGB]
    norm_num
  have hiriss3 : (convert x y z IRISSON_RYB_TO_RGB).2.2 =
      (1-x)*(1-y)*(1-z)*1 + (1-x)*(1-y)*z*(6/10) + (1-x)*y*(1-z)*0 + (1-x)*y*z*(2/10) +
      x*(1-y)*(1-z)*0 + x*(1-y)*z*(9/10) + x*y*(1-z)*0 + x*y*z*0 := by
    simp only [convert, IRISSON_RYB_TO_RGB]
    norm_num
  have hryb1 : (convert x y z RGB_TO_RYB).1 =
      (1-x)*(1-y)*(1-z)*1 + (1-x)*(1-y)*z*0 + (1-x)*y*(1-z)*0 + (1-x)*y*z*0 +
      x*(1-y)*(1-z)*1 + x*(1-y)*z*(309/1000) + x*y*(1-z)*0 + x*y*z*0 := by
    simp only [convert, RGB_TO_RYB]
    norm_num
  have hryb2 : (convert x y z RGB_TO_RYB).2.1 =
      (1-x)*(1-y)*(1-z)*1 + (1-x)*(1-y)*z*0 + (1-x)*y*(1-z)*1 + (1-x)*y*z*(53/1000) +
      x*(1-y)*(1-z)*0 + x*(1-y)*z*0 + x*y*(1-z)*1 + x*y*z*0 := by
    simp only [convert, RGB_TO_RYB]
    norm_num
  have hryb3 : (convert x y z RGB_TO_RYB).2.2 =
      (1-x)*(1-y)*(1-z)*1 + (1-x)*(1-y)*z*1 + (1-x)*y*(1-z)*(483/1000) + (1-x)*y*z*(21/100) +
      x*(1-y)*(1-z)*0 + x*(1-y)*z*(469/1000) + x*y*(1-z)*0 + x*y*z*0 := by
    simp only [convert, RGB_TO_RYB]
    norm_num
  refine ⟨?_, ?_, ?_, ?_, ?_, ?_⟩
  · show 0 ≤ pytrunc ((convert x y z IRISSON_RYB_TO_RGB).1 * 255 + 1/2) ∧ pytrunc ((convert x y z IRISSON_RYB_TO_RGB).1 * 255 + 1/2) ≤ 255
    rw [hiriss1]
    apply byte_of_unit_mem
    apply trilinear_mix_mem hx0 hx1 hy0 hy1 hz0 hz1 <;> norm_num
  · show 0 ≤ pytrunc ((convert x y z IRISSON_RYB_TO_RGB).2.1 * 255 + 1/2) ∧ pytrunc ((convert x y z IRISSON_RYB_TO_RGB).2.1 * 255 + 1/2) ≤ 255
    rw [hiriss2]
    apply byte_of_unit_mem
    apply trilinear_mix_mem hx0 hx1 hy0 hy1 hz0 hz1 <;> norm_num
  · show 0 ≤ pytrunc ((convert x y z IRISSON_RYB_TO_RGB).2.2 * 255 + 1/2) ∧ pytrunc ((convert x y z IRISSON_RYB_TO_RGB).2.2 * 255 + 1/2) ≤ 255
    rw [hiriss3]
    apply byte_of_unit_mem
    apply trilinear_mix_mem hx0 hx1 hy0 hy1 hz0 hz1 <;> norm_num
  · show 0 ≤ pytrunc ((convert x y z RGB_TO_RYB).1 * 255 + 1/2) ∧ pytrunc ((convert x y z RGB_TO_RYB).1 * 255 + 1/2) ≤ 255
    rw [hryb1]
    apply byte_of_unit_mem
    apply trilinear_mix_mem hx0 hx1 hy0 hy1 hz0 hz1 <;> norm_num
  · show 0 ≤ pytrunc ((convert x y z RGB_TO_RYB).2.1 * 255 + 1/2) ∧ pytrunc ((convert x y z RGB_TO_RYB).2.1 * 255 + 1/2) ≤ 255
    rw [hryb2]
    apply byte_of_unit_mem
    apply trilinear_mix_mem hx0 hx1 hy0 hy1 hz0 hz1 <;> norm_num
  · show 0 ≤ pytrunc ((convert x y z RGB_TO_RYB).2.2 * 255 + 1/2) ∧ pytrunc ((convert x y z RGB_TO_RYB).2.2 * 255 + 1/2) ≤ 255
    rw [hryb3]
    apply byte_of_unit_mem
    apply trilinear_mix_mem hx0 hx1 hy0 hy1 hz0 hz1 <;> norm_num

/-- Witness for C10 at the concrete input `(10, 20, 30)`. -/
theorem ryb_conversions_in_range_witness :
    ((0:ℤ) ≤ 10 ∧ (10:ℤ) ≤ 255) ∧
    (0 ≤ (ryb_to_rgb ⟨10, 20, 30⟩).r ∧ (ryb_to_rgb ⟨10, 20, 30⟩).r ≤ 255) :=
  ⟨⟨by norm_num, by norm_num⟩,
   (ryb_conversions_in_range 10 20 30 (by norm_num) (by norm_num) (by norm_num)
      (by norm_num) (by norm_num) (by norm_num)).1⟩

/-! ### Character-level facts for the hex codec -/

theorem byte_format_facts : ∀ n : ℕ, n < 256 →
    (padZero 2 (natToHex n)).length = 2 ∧
    (padZero 2 (natToHex n)).all isLowerHexDigit = true ∧
    pyIntHex (padZero 2 (natToHex n)) = some (n : ℤ) := by decide

theorem lowerHex_isHex {c : Char} (h : isLowerHexDigit c = true) :
    isHexDigitChar c = true := by
  unfold isLowerHexDigit at h
  unfold isHexDigitChar
  rcases Bool.or_eq_true_iff.mp h with h' | h' <;> simp [h']

theorem space_not_hexDigit {c : Char} (h : isPySpace c = true) :
    isHexDigitChar c = false := by
  unfold isPySpace at h
  simp only [Bool.or_eq_true, decide_eq_true_eq] at h
  rcases h with ((((h | h) | h) | h) | h) | h <;> subst h <;> decide

theorem hexDigit_not_space {c : Char} (h : isHexDigitChar c = true) :
    isPySpace c = false := by
  cases hsp : isPySpace c with
  | false => rfl
  | true =>
      have hf := space_not_hexDigit hsp
      rw [h] at hf
      exact absurd hf (by decide)

theorem hexDigit_ne {c c' : Char} (h : isHexDigitChar c = true)
    (h' : isHexDigitChar c' = false) : ¬(c = c') := by
  intro he
  subst he
  rw [h'] at h
  exact absurd h (by decide)

theorem dropWhile_append_of_all {p : Char → Bool} (pre l : List Char)
    (h : pre.all p = true) : (pre ++ l).dropWhile p = l.dropWhile p := by
  induction pre with
  | nil => rfl
  | cons c t ih =>
      rw [List.all_cons, Bool.and_eq_true] at h
      simp only [List.cons_append, List.dropWhile_cons, h.1, if_true]
      exact ih h.2

theorem pyIntHex_two_hex {c1 c2 : Char} (h1 : isHexDigitChar c1 = true)
    (h2 : isHexDigitChar c2 = true) :
    pyIntHex [c1, c2] = some (16 * hexVal c1 + hexVal c2) := by
  have hs1 : isPySpace c1 = false := hexDigit_not_space h1
  have hs2 : isPySpace c2 = false := hexDigit_not_space h2
  have hplus : ¬(c1 = '+') := hexDigit_ne h1 (by decide)
  have hminus : ¬(c1 = '-') := hexDigit_ne h1 (by decide)
  have hx : ¬(c2 = 'x') := hexDigit_ne h2 (by decide)
  have hX : ¬(c2 = 'X') := hexDigit_ne h2 (by decide)
  have e1 : List.dropWhile isPySpace [c1, c2] = [c1, c2] := by
    simp [List.dropWhile_cons, hs1]
  have e2 : List.dropWhile isPySpace [c2, c1] = [c2, c1] := by
    simp [List.dropWhile_cons, hs2]
  have e3 : ([c1, c2] : List Char).reverse = [c2, c1] := rfl
  have e4 : ([c2, c1] : List Char).reverse = [c1, c2] := rfl
  simp only [pyIntHex, e1, e3, e2, e4]
  split
  · rename_i rest heq
    rw [List.cons.injEq] at heq
    exact absurd heq.1 hplus
  · rename_i rest heq
    rw [List.cons.injEq] at heq
    exact absurd heq.1 hminus
  · unfold hexBody
    split
    · rename_i rest heq
      simp only [List.cons.injEq] at heq
      exact absurd heq.2.1 hx
    · rename_i rest heq
      simp only [List.cons.injEq] at heq
      exact absurd heq.2.1 hX
    · simp only [hexCore, h1, if_true]
      unfold hexRun
      split
      · rename_i heq
        simp at heq
      · rename_i c rest heq
        simp only [List.cons.injEq] at heq
        simp at heq
      · rename_i c rest heq
        simp only [List.cons.injEq] at heq
        obtain ⟨hc, hrest⟩ := heq
        subst hc
        subst hrest
        rw [if_pos h2]
        rfl

/-! ### C5: hex round-trip -/

/-- C5: `hex_to_rgb (rgb_to_hex r g b) = (r, g, b)` exactly for all
channels in `[0, 255]`, with `rgb_to_hex` producing `#` followed by
exactly six lowercase zero-padded hex digits. -/
theorem hex_roundtrip_exact (r g b : ℤ)
    (hr0 : 0 ≤ r) (hr1 : r ≤ 255) (hg0 : 0 ≤ g) (hg1 : g ≤ 255)
    (hb0 : 0 ≤ b) (hb1 : b ≤ 255) :
    hex_to_rgb (rgb_to_hex r g b) = some ⟨r, g, b⟩ ∧
    (rgb_to_hex r g b).length = 7 ∧
    (rgb_to_hex r g b).take 1 = ['#'] ∧
    ((rgb_to_hex r g b).drop 1).all isLowerHexDigit = true := by
  obtain ⟨fr2, frall, frval⟩ := byte_format_facts r.natAbs (by omega)
  obtain ⟨fg2, fgall, fgval⟩ := byte_format_facts g.natAbs (by omega)
  obtain ⟨fb2, fball, fbval⟩ := byte_format_facts b.natAbs (by omega)
  have hfr : format02x r = padZero 2 (natToHex r.natAbs) := if_neg (by omega)
  have hfg : format02x g = padZero 2 (natToHex g.natAbs) := if_neg (by omega)
  have hfb : format02x b = padZero 2 (natToHex b.natAbs) := if_neg (by omega)
  obtain ⟨a1, a2, ha⟩ := List.length_eq_two.mp fr2
  obtain ⟨b1, b2, hbb⟩ := List.length_eq_two.mp fg2
  obtain ⟨c1, c2, hc⟩ := List.length_eq_two.mp fb2
  rw [ha] at frall frval
  rw [hbb] at fgall fgval
  rw [hc] at fball fbval
  simp only [List.all_cons, List.all_nil, Bool.and_eq_true, Bool.and_true] at frall fgall fball
  have hhex : rgb_to_hex r g b = '#' :: a1 :: a2 :: b1 :: b2 :: c1 :: c2 :: [] := by
    rw [rgb_to_hex, hfr, hfg, hfb, ha, hbb, hc]
    rfl
  have hrv : ((r.natAbs : ℕ) : ℤ) = r := Int.natAbs_of_nonneg hr0
  have hgv : ((g.natAbs : ℕ) : ℤ) = g := Int.natAbs_of_nonneg hg0
  have hbv : ((b.natAbs : ℕ) : ℤ) = b := Int.natAbs_of_nonneg hb0
  have ha1 : ¬(a1 = '#') := hexDigit_ne (lowerHex_isHex frall.1) (by decide)
  refine ⟨?_, by rw [hhex]; rfl, by rw [hhex]; rfl, ?_⟩
  · rw [hhex]
    simp only [hex_to_rgb]
    have hdrop : List.dropWhile (fun ch => ch = '#')
        ( '#' :: a1 :: a2 :: b1 :: b2 :: c1 :: c2 :: []) =
        a1 :: a2 :: b1 :: b2 :: c1 :: c2 :: [] := by
      simp [List.dropWhile_cons, ha1]
    rw [hdrop]
    have hs1 : pySlice (a1 :: a2 :: b1 :: b2 :: c1 :: c2 :: []) 0 2 = [a1, a2] := rfl
    have hs2 : pySlice (a1 :: a2 :: b1 :: b2 :: c1 :: c2 :: []) 2 4 = [b1, b2] := rfl
    have hs3 : pySlice (a1 :: a2 :: b1 :: b2 :: c1 :: c2 :: []) 4 6 = [c1, c2] := rfl
    rw [hs1, hs2, hs3, frval, fgval, fbval]
    simp [hrv, hgv, hbv]
  · rw [hhex]
    simp only [List.drop, List.all_cons, List.all_nil, Bool.and_true]
    simp [frall.1, frall.2, fgall.1, fgall.2, fball.1, fball.2]

/-- Witness for C5 at the concrete input `(255, 0, 16)`. -/
theorem hex_roundtrip_exact_witness :
    ((0:ℤ) ≤ 255 ∧ (255:ℤ) ≤ 255 ∧ (0:ℤ) ≤ 0 ∧ (0:ℤ) ≤ 255 ∧ (0:ℤ) ≤ 16 ∧ (16:ℤ) ≤ 255) ∧
    hex_to_rgb (rgb_to_hex 255 0 16) = some ⟨255, 0, 16⟩ :=
  ⟨⟨by norm_num, by norm_num, by norm_num, by norm_num, by norm_num, by norm_num⟩,
   (hex_roundtrip_exact 255 0 16 (by norm_num) (by norm_num) (by norm_num) (by norm_num)
     (by norm_num) (by norm_num)).1⟩

/-! ### C3: hex parsing (corrected) -/

/-- C3 counterexample: `"ff000"` has five hex digits, so by the claim it
should fail; the code parses it successfully (slicing gives `"ff"`,
`"00"`, `"0"`). -/
theorem hex_parse_counterexample :
    (hex_to_rgb ( "ff000".toList)).isSome = true ∧
    specSixHex ( "ff000".toList) = false := by
  constructor <;> rfl

/-- C3 amended: `hex_to_rgb` strips every leading `#`, then fails iff
one of the two-character slices `[0:2]`, `[2:4]`, `[4:6]` of the
remainder fails to parse as a base-16 integer; in particular it
succeeds on any string whose stripped remainder begins with six hex
digits, ignoring everything after them. -/
theorem hex_parse_amended :
    (∀ s : List Char, hex_to_rgb s = none ↔
       (pyIntHex (pySlice (s.dropWhile (fun ch => ch = '#')) 0 2) = none ∨
        pyIntHex (pySlice (s.dropWhile (fun ch => ch = '#')) 2 4) = none ∨
        pyIntHex (pySlice (s.dropWhile (fun ch => ch = '#')) 4 6) = none)) ∧
    (∀ (d1 d2 d3 d4 d5 d6 : Char) (pre rest : List Char),
       pre.all (fun ch => ch = '#') = true →
       [d1, d2, d3, d4, d5, d6].all isHexDigitChar = true →
       hex_to_rgb (pre ++ d1 :: d2 :: d3 :: d4 :: d5 :: d6 :: rest) =
         some ⟨16 * hexVal d1 + hexVal d2, 16 * hexVal d3 + hexVal d4,
               16 * hexVal d5 + hexVal d6⟩) := by
  constructor
  · intro s
    unfold hex_to_rgb
    rcases h1 : pyIntHex (pySlice (s.dropWhile (fun ch => ch = '#')) 0 2) with _ | v1 <;>
      rcases h2 : pyIntHex (pySlice (s.dropWhile (fun ch => ch = '#')) 2 4) with _ | v2 <;>
        rcases h3 : pyIntHex (pySlice (s.dropWhile (fun ch => ch = '#')) 4 6) with _ | v3 <;>
          simp [h1, h2, h3]
  · intro d1 d2 d3 d4 d5 d6 pre rest hpre hhex
    simp only [List.all_cons, List.all_nil, Bool.and_eq_true, Bool.and_true] at hhex
    obtain ⟨h1, h2, h3, h4, h5, h6⟩ := hhex
    have hne : ¬(d1 = '#') := hexDigit_ne h1 (by decide)
    have hdrop : (pre ++ d1 :: d2 :: d3 :: d4 :: d5 :: d6 :: rest).dropWhile
        (fun ch => ch = '#') = d1 :: d2 :: d3 :: d4 :: d5 :: d6 :: rest := by
      rw [dropWhile_append_of_all pre _ hpre]
      simp [List.dropWhile_cons, hne]
    simp only [hex_to_rgb]
    rw [hdrop]
    have hs1 : pySlice (d1 :: d2 :: d3 :: d4 :: d5 :: d6 :: rest) 0 2 = [d1, d2] := rfl
    have hs2 : pySlice (d1 :: d2 :: d3 :: d4 :: d5 :: d6 :: rest) 2 4 = [d3, d4] := rfl
    have hs3 : pySlice (d1 :: d2 :: d3 :: d4 :: d5 :: d6 :: rest) 4 6 = [d5, d6] := rfl
    rw [hs1, hs2, hs3, pyIntHex_two_hex h1 h2, pyIntHex_two_hex h3 h4, pyIntHex_two_hex h5 h6]

/-- Witness for the amended C3 at `"#ff0010"`. -/
theorem hex_parse_amended_witness :
    (['#'].all (fun ch => ch = '#') = true) ∧
    ([ 'f', 'f', '0', '0', '1', '0'].all isHexDigitChar = true) ∧
    hex_to_rgb (['#'] ++ 'f' :: 'f' :: '0' :: '0' :: '1' :: '0' :: []) =
      some ⟨16 * hexVal 'f' + hexVal 'f', 16 * hexVal '0' + hexVal '0',
            16 * hexVal '1' + hexVal '0'⟩ :=
  ⟨by decide, by decide,
   hex_parse_amended.2 'f' 'f' '0' '0' '1' '0' ['#'] [] (by decide) (by decide)⟩

/-! ### Ranges of the forward HSL conversion -/

theorem rgb_to_hls_achro (x y z : ℚ) (h : min x (min y z) = max x (max y z)) :
    rgb_to_hls x y z = (0, (max x (max y z) + min x (min y z)) / 2, 0) := by
  simp only [rgb_to_hls, if_pos h]

theorem rgb_to_hls_l_eq (x y z : ℚ) :
    (rgb_to_hls x y z).2.1 = (max x (max y z) + min x (min y z)) / 2 := by
  simp only [rgb_to_hls]
  split_ifs <;> rfl

theorem rgb_to_hls_s_eq (x y z : ℚ) (h : ¬(min x (min y z) = max x (max y z))) :
    (rgb_to_hls x y z).2.2 =
      if (max x (max y z) + min x (min y z)) / 2 ≤ 1/2
      then (max x (max y z) - min x (min y z)) / (max x (max y z) + min x (min y z))
      else (max x (max y z) - min x (min y z)) / (2 - (max x (max y z) + min x (min y z))) := by
  simp only [rgb_to_hls, if_neg h]

theorem rgb_to_hls_h_eq (x y z : ℚ) (h : ¬(min x (min y z) = max x (max y z))) :
    (rgb_to_hls x y z).1 =
      pymod ((if x = max x (max y z)
              then (max x (max y z) - z) / (max x (max y z) - min x (min y z)) -
                   (max x (max y z) - y) / (max x (max y z) - min x (min y z))
              else if y = max x (max y z)
              then 2 + (max x (max y z) - x) / (max x (max y z) - min x (min y z)) -
                   (max x (max y z) - z) / (max x (max y z) - min x (min y z))
              else 4 + (max x (max y z) - y) / (max x (max y z) - min x (min y z)) -
                   (max x (max y z) - x) / (max x (max y z) - min x (min y z))) / 6) 1 := by
  simp only [rgb_to_hls, if_neg h]

theorem rgb_to_hls_h_mem (x y z : ℚ) :
    0 ≤ (rgb_to_hls x y z).1 ∧ (rgb_to_hls x y z).1 < 1 := by
  by_cases h : min x (min y z) = max x (max y z)
  · rw [rgb_to_hls_achro x y z h]
    exact ⟨le_refl 0, one_pos⟩
  · rw [rgb_to_hls_h_eq x y z h]
    exact ⟨pymod_nonneg _ one_pos, pymod_lt _ one_pos⟩

theorem rgb_to_hls_l_mem {x y z : ℚ} (hx0 : 0 ≤ x) (hx1 : x ≤ 1)
    (hy0 : 0 ≤ y) (hy1 : y ≤ 1) (hz0 : 0 ≤ z) (hz1 : z ≤ 1) :
    0 ≤ (rgb_to_hls x y z).2.1 ∧ (rgb_to_hls x y z).2.1 ≤ 1 := by
  have hmax1 : max x (max y z) ≤ 1 := max_le hx1 (max_le hy1 hz1)
  have hmin0 : 0 ≤ min x (min y z) := le_min hx0 (le_min hy0 hz0)
  have hmm : min x (min y z) ≤ max x (max y z) :=
    le_trans (min_le_left _ _) (le_max_left _ _)
  have hmin1 : min x (min y z) ≤ 1 := le_trans hmm hmax1
  rw [rgb_to_hls_l_eq]
  constructor <;> linarith

theorem rgb_to_hls_s_mem {x y z : ℚ} (hx0 : 0 ≤ x) (hx1 : x ≤ 1)
    (hy0 : 0 ≤ y) (hy1 : y ≤ 1) (hz0 : 0 ≤ z) (hz1 : z ≤ 1) :
    0 ≤ (rgb_to_hls x y z).2.2 ∧ (rgb_to_hls x y z).2.2 ≤ 1 := by
  have hmax1 : max x (max y z) ≤ 1 := max_le hx1 (max_le hy1 hz1)
  have hmin0 : 0 ≤ min x (min y z) := le_min hx0 (le_min hy0 hz0)
  have hmm : min x (min y z) ≤ max x (max y z) :=
    le_trans (min_le_left _ _) (le_max_left _ _)
  by_cases h : min x (min y z) = max x (max y z)
  · rw [rgb_to_hls_achro x y z h]
    exact ⟨le_refl 0, zero_le_one⟩
  · have hlt : min x (min y z) < max x (max y z) := lt_of_le_of_ne hmm h
    rw [rgb_to_hls_s_eq x y z h]
    split_ifs with h2
    · have hsum : 0 < max x (max y z) + min x (min y z) := by
        have : 0 < max x (max y z) := lt_of_le_of_lt hmin0 hlt
        linarith
      refine ⟨div_nonneg (by linarith) hsum.le, ?_⟩
      rw [div_le_one hsum]
      linarith
    · have hden : 0 < 2 - (max x (max y z) + min x (min y z)) := by
        have : min x (min y z) < 1 := lt_of_lt_of_le hlt hmax1
        linarith
      refine ⟨div_nonneg (by linarith) hden.le, ?_⟩
      rw [div_le_one hden]
      linarith

theorem round_mem {t : ℚ} {B : ℤ} (h0 : 0 ≤ t) (h1 : t ≤ (B : ℚ)) :
    0 ≤ pytrunc (t + 1/2) ∧ pytrunc (t + 1/2) ≤ B := by
  rw [pytrunc_eq_floor (by linarith)]
  refine ⟨Int.floor_nonneg.mpr (by linarith), ?_⟩
  have hlt : t + 1/2 < ((B + 1 : ℤ) : ℚ) := by push_cast; linarith
  have := Int.floor_lt.mpr hlt
  omega

/-! ### C4: output ranges of rgb_to_hsl (corrected: hue can be 360) -/

/-- C4 counterexample: `rgb_to_hsl 255 0 1` returns hue exactly 360 (the
exact hue is 359.76°, and round-half-up pushes it to 360), contradicting
the claimed interval `[0, 360)`. -/
theorem hsl_range_counterexample :
    (rgb_to_hsl 255 0 1).h = 360 ∧ ¬((rgb_to_hsl 255 0 1).h < 360) := by
  have h : (rgb_to_hsl 255 0 1).h = 360 := by
    norm_num [rgb_to_hsl, rgb_to_hls, pymod, pytrunc, max_def, min_def]
  exact ⟨h, by rw [h]; norm_num⟩

/-- C4 amended: for integer RGB inputs in `[0, 255]` the returned hue
lies in `[0, 360]` (360 itself is attained) and saturation and
lightness lie in `[0, 100]`. -/
theorem hsl_ranges (r g b : ℤ)
    (hr0 : 0 ≤ r) (hr1 : r ≤ 255) (hg0 : 0 ≤ g) (hg1 : g ≤ 255)
    (hb0 : 0 ≤ b) (hb1 : b ≤ 255) :
    (0 ≤ (rgb_to_hsl r g b).h ∧ (rgb_to_hsl r g b).h ≤ 360) ∧
    (0 ≤ (rgb_to_hsl r g b).s ∧ (rgb_to_hsl r g b).s ≤ 100) ∧
    (0 ≤ (rgb_to_hsl r g b).l ∧ (rgb_to_hsl r g b).l ≤ 100) := by
  obtain ⟨hx0, hx1⟩ := norm_unit_mem hr0 hr1
  obtain ⟨hy0, hy1⟩ := norm_unit_mem hg0 hg1
  obtain ⟨hz0, hz1⟩ := norm_unit_mem hb0 hb1
  obtain ⟨hh0, hh1⟩ := rgb_to_hls_h_mem ((r:ℚ)/255) ((g:ℚ)/255) ((b:ℚ)/255)
  obtain ⟨hl0, hl1⟩ := rgb_to_hls_l_mem hx0 hx1 hy0 hy1 hz0 hz1
  obtain ⟨hs0, hs1⟩ := rgb_to_hls_s_mem hx0 hx1 hy0 hy1 hz0 hz1
  have hh := round_mem (t := (rgb_to_hls ((r:ℚ)/255) ((g:ℚ)/255) ((b:ℚ)/255)).1 * 360)
    (B := 360) (by positivity) (by nlinarith)
  have hs := round_mem (t := (rgb_to_hls ((r:ℚ)/255) ((g:ℚ)/255) ((b:ℚ)/255)).2.2 * 100)
    (B := 100) (by positivity) (by nlinarith)
  have hl := round_mem (t := (rgb_to_hls ((r:ℚ)/255) ((g:ℚ)/255) ((b:ℚ)/255)).2.1 * 100)
    (B := 100) (by positivity) (by nlinarith)
  refine ⟨⟨?_, ?_⟩, ⟨?_, ?_⟩, ⟨?_, ?_⟩⟩
  · show (0:ℚ) ≤ ((pytrunc ((rgb_to_hls ((r:ℚ)/255) ((g:ℚ)/255) ((b:ℚ)/255)).1 * 360 + 1/2) : ℤ) : ℚ)
    exact_mod_cast hh.1
  · show ((pytrunc ((rgb_to_hls ((r:ℚ)/255) ((g:ℚ)/255) ((b:ℚ)/255)).1 * 360 + 1/2) : ℤ) : ℚ) ≤ 360
    exact_mod_cast hh.2
  · show (0:ℚ) ≤ ((pytrunc ((rgb_to_hls ((r:ℚ)/255) ((g:ℚ)/255) ((b:ℚ)/255)).2.2 * 100 + 1/2) : ℤ) : ℚ)
    exact_mod_cast hs.1
  · show ((pytrunc ((rgb_to_hls ((r:ℚ)/255) ((g:ℚ)/255) ((b:ℚ)/255)).2.2 * 100 + 1/2) : ℤ) : ℚ) ≤ 100
    exact_mod_cast hs.2
  · show (0:ℚ) ≤ ((pytrunc ((rgb_to_hls ((r:ℚ)/255) ((g:ℚ)/255) ((b:ℚ)/255)).2.1 * 100 + 1/2) : ℤ) : ℚ)
    exact_mod_cast hl.1
  · show ((pytrunc ((rgb_to_hls ((r:ℚ)/255) ((g:ℚ)/255) ((b:ℚ)/255)).2.1 * 100 + 1/2) : ℤ) : ℚ) ≤ 100
    exact_mod_cast hl.2

/-- Witness for the amended C4 at the concrete input `(255, 0, 1)`. -/
theorem hsl_ranges_witness :
    ((0:ℤ) ≤ 255 ∧ (255:ℤ) ≤ 255 ∧ (0:ℤ) ≤ 0 ∧ (0:ℤ) ≤ 255 ∧ (0:ℤ) ≤ 1 ∧ (1:ℤ) ≤ 255) ∧
    (0 ≤ (rgb_to_hsl 255 0 1).h ∧ (rgb_to_hsl 255 0 1).h ≤ 360) :=
  ⟨⟨by norm_num, by norm_num, by norm_num, by norm_num, by norm_num, by norm_num⟩,
   (hsl_ranges 255 0 1 (by norm_num) (by norm_num) (by norm_num) (by norm_num)
     (by norm_num) (by norm_num)).1⟩

/-! ### The hue profile of colorsys's `_v` -/

theorem pymod_add_one {t : ℚ} (h0 : -1 ≤ t) (h1 : t < 0) : pymod t 1 = t + 1 := by
  have hf : ⌊t / 1⌋ = -1 := by
    rw [div_one]
    rw [Int.floor_eq_iff]
    constructor <;> push_cast <;> linarith
  unfold pymod
  rw [hf]
  push_cast
  ring

theorem pymod_sub_one {t : ℚ} (h0 : 1 ≤ t) (h1 : t < 2) : pymod t 1 = t - 1 := by
  have hf : ⌊t / 1⌋ = 1 := by
    rw [div_one]
    rw [Int.floor_eq_iff]
    constructor <;> push_cast <;> linarith
  unfold pymod
  rw [hf]
  push_cast
  ring

theorem round_close {t : ℚ} (h0 : 0 ≤ t) : |(pytrunc (t + 1/2) : ℚ) - t| ≤ 1/2 := by
  rw [pytrunc_eq_floor (by linarith)]
  have hle : (⌊t + 1/2⌋ : ℚ) ≤ t + 1/2 := Int.floor_le _
  have hgt : t + 1/2 - 1 < (⌊t + 1/2⌋ : ℚ) := by
    have := Int.lt_floor_add_one (t + 1/2)
    linarith
  rw [abs_le]
  constructor <;> linarith

theorem wfun_nonneg (u : ℚ) : 0 ≤ wfun u := le_max_left 0 _

theorem wfun_le_one (u : ℚ) : wfun u ≤ 1 :=
  max_le zero_le_one (min_le_left 1 _)

theorem wfun_eq_ramp1 {u : ℚ} (h0 : 0 ≤ u) (h1 : u ≤ 1/6) : wfun u = 6 * u := by
  unfold wfun
  rw [min_eq_left (by linarith : (6*u : ℚ) ≤ 4 - 6*u),
      min_eq_right (by linarith : (6*u : ℚ) ≤ 1),
      max_eq_right (by linarith : (0:ℚ) ≤ 6*u)]

theorem wfun_eq_one {u : ℚ} (h0 : 1/6 ≤ u) (h1 : u ≤ 1/2) : wfun u = 1 := by
  unfold wfun
  rw [min_eq_left (le_min (by linarith) (by linarith) : (1:ℚ) ≤ min (6*u) (4 - 6*u)),
      max_eq_right zero_le_one]

theorem wfun_eq_ramp2 {u : ℚ} (h0 : 1/2 ≤ u) (h1 : u ≤ 2/3) : wfun u = 4 - 6 * u := by
  unfold wfun
  rw [min_eq_right (by linarith : (4 - 6*u : ℚ) ≤ 6*u),
      min_eq_right (by linarith : (4 - 6*u : ℚ) ≤ 1),
      max_eq_right (by linarith : (0:ℚ) ≤ 4 - 6*u)]

theorem wfun_eq_zero {u : ℚ} (h : 2/3 ≤ u) : wfun u = 0 := by
  unfold wfun
  rw [min_eq_right (by linarith : (4 - 6*u : ℚ) ≤ 6*u)]
  rw [min_eq_right (by linarith : (4 - 6*u : ℚ) ≤ 1)]
  rw [max_eq_left (by linarith : (4 - 6*u : ℚ) ≤ 0)]

theorem wfun_le_six_mul {u : ℚ} (h : 0 ≤ u) : wfun u ≤ 6 * u := by
  unfold wfun
  apply max_le (by linarith)
  exact le_trans (min_le_right _ _) (min_le_left _ _)

theorem wfun_lip (u v : ℚ) : |wfun u - wfun v| ≤ 6 * |u - v| := by
  unfold wfun
  have h1 : |max 0 (min 1 (min (6*u) (4 - 6*u))) - max 0 (min 1 (min (6*v) (4 - 6*v)))| ≤
      max |(0:ℚ) - 0| |min 1 (min (6*u) (4 - 6*u)) - min 1 (min (6*v) (4 - 6*v))| :=
    abs_max_sub_max_le_max _ _ _ _
  have h2 : |min (1:ℚ) (min (6*u) (4 - 6*u)) - min 1 (min (6*v) (4 - 6*v))| ≤
      max |(1:ℚ) - 1| |min (6*u) (4 - 6*u) - min (6*v) (4 - 6*v)| :=
    abs_min_sub_min_le_max _ _ _ _
  have h3 : |min (6*u) (4 - 6*u) - min (6*v) (4 - 6*v)| ≤
      max |6*u - 6*v| |(4 - 6*u) - (4 - 6*v)| :=
    abs_min_sub_min_le_max _ _ _ _
  have h4 : |6*u - 6*v| = 6 * |u - v| := by
    rw [show (6*u - 6*v : ℚ) = 6 * (u - v) by ring, abs_mul]
    norm_num
  have h5 : |(4 - 6*u) - (4 - 6*v)| = 6 * |u - v| := by
    rw [show ((4 - 6*u) - (4 - 6*v) : ℚ) = -(6 * (u - v)) by ring, abs_neg, abs_mul]
    norm_num
  rw [h4, h5] at h3
  simp only [sub_self, abs_zero, max_self] at h3
  have h6 : max |(0:ℚ) - 0| |min 1 (min (6*u) (4 - 6*u)) - min 1 (min (6*v) (4 - 6*v))| =
      |min (1:ℚ) (min (6*u) (4 - 6*u)) - min 1 (min (6*v) (4 - 6*v))| := by
    simp only [sub_self, abs_zero]
    exact max_eq_right (abs_nonneg _)
  have h7 : max |(1:ℚ) - 1| |min (6*u) (4 - 6*u) - min (6*v) (4 - 6*v)| =
      |min (6*u) (4 - 6*u) - min (6*v) (4 - 6*v)| := by
    simp only [sub_self, abs_zero]
    exact max_eq_right (abs_nonneg _)
  rw [h6] at h1
  rw [h7] at h2
  calc |max 0 (min 1 (min (6*u) (4 - 6*u))) - max 0 (min 1 (min (6*v) (4 - 6*v)))|
      ≤ |min (1:ℚ) (min (6*u) (4 - 6*u)) - min 1 (min (6*v) (4 - 6*v))| := h1
    _ ≤ |min (6*u) (4 - 6*u) - min (6*v) (4 - 6*v)| := h2
    _ ≤ 6 * |u - v| := h3

theorem colorsys_v_wfun (m1 m2 t : ℚ) :
    colorsys_v m1 m2 t = m1 + (m2 - m1) * wfun (pymod t 1) := by
  have h0 : 0 ≤ pymod t 1 := pymod_nonneg _ one_pos
  have h1 : pymod t 1 < 1 := pymod_lt _ one_pos
  simp only [colorsys_v]
  split_ifs with ha hb hc
  · rw [wfun_eq_ramp1 h0 (by linarith)]
    ring
  · rw [wfun_eq_one (by linarith) (by linarith)]
    ring
  · rw [wfun_eq_ramp2 (by linarith) (by linarith)]
    ring
  · rw [wfun_eq_zero (by linarith)]
    ring

theorem pymod_one_dist {a b : ℚ} (h : |a - b| ≤ 1/720) :
    |pymod a 1 - pymod b 1| ≤ 1/720 ∨
    (2/3 ≤ pymod a 1 ∧ pymod b 1 ≤ 1/720) ∨
    (2/3 ≤ pymod b 1 ∧ pymod a 1 ≤ 1/720) := by
  obtain ⟨habl, habr⟩ := abs_le.mp h
  have ea : pymod a 1 = a - ⌊a⌋ := by unfold pymod; rw [div_one]; ring
  have eb : pymod b 1 = b - ⌊b⌋ := by unfold pymod; rw [div_one]; ring
  have ha0 : 0 ≤ pymod a 1 := pymod_nonneg _ one_pos
  have ha1 : pymod a 1 < 1 := pymod_lt _ one_pos
  have hb0 : 0 ≤ pymod b 1 := pymod_nonneg _ one_pos
  have hb1 : pymod b 1 < 1 := pymod_lt _ one_pos
  have hfab : ⌊a⌋ ≤ ⌊b⌋ + 1 := by
    have h1 : a ≤ b + 1 := by linarith
    calc ⌊a⌋ ≤ ⌊b + 1⌋ := Int.floor_le_floor h1
      _ = ⌊b⌋ + 1 := Int.floor_add_one b
  have hfba : ⌊b⌋ ≤ ⌊a⌋ + 1 := by
    have h1 : b ≤ a + 1 := by linarith
    calc ⌊b⌋ ≤ ⌊a + 1⌋ := Int.floor_le_floor h1
      _ = ⌊a⌋ + 1 := Int.floor_add_one a
  rcases lt_trichotomy (⌊a⌋) (⌊b⌋) with hlt | heq | hgt
  · have he : ⌊b⌋ = ⌊a⌋ + 1 := by omega
    have heq : ((⌊b⌋ : ℤ) : ℚ) = ((⌊a⌋ : ℤ) : ℚ) + 1 := by exact_mod_cast he
    right; left
    constructor <;> linarith [ea, eb]
  · have heq' : ((⌊a⌋ : ℤ) : ℚ) = ((⌊b⌋ : ℤ) : ℚ) := by exact_mod_cast heq
    left
    rw [abs_le]
    constructor <;> linarith [ea, eb]
  · have he : ⌊a⌋ = ⌊b⌋ + 1 := by omega
    have heq : ((⌊a⌋ : ℤ) : ℚ) = ((⌊b⌋ : ℤ) : ℚ) + 1 := by exact_mod_cast he
    right; right
    constructor <;> linarith [ea, eb]

theorem wfun_pymod_close {a b : ℚ} (h : |a - b| ≤ 1/720) :
    |wfun (pymod a 1) - wfun (pymod b 1)| ≤ 1/120 := by
  rcases pymod_one_dist h with hc | ⟨h1, h2⟩ | ⟨h1, h2⟩
  · have := wfun_lip (pymod a 1) (pymod b 1)
    have h6 : 6 * |pymod a 1 - pymod b 1| ≤ 6 * (1/720) := by linarith
    linarith
  · rw [wfun_eq_zero h1, zero_sub, abs_neg, abs_of_nonneg (wfun_nonneg _)]
    have := wfun_le_six_mul (pymod_nonneg b one_pos)
    linarith
  · rw [wfun_eq_zero h1, sub_zero, abs_of_nonneg (wfun_nonneg _)]
    have := wfun_le_six_mul (pymod_nonneg a one_pos)
    linarith

theorem convex_comb_abs {a b w : ℚ} (h0 : 0 ≤ w) (h1 : w ≤ 1) :
    |a * (1 - w) + b * w| ≤ max |a| |b| := by
  have ha : |a| ≤ max |a| |b| := le_max_left _ _
  have hb : |b| ≤ max |a| |b| := le_max_right _ _
  have h2 : |a * (1 - w) + b * w| ≤ |a * (1 - w)| + |b * w| := abs_add _ _
  have h3 : |a * (1 - w)| = |a| * (1 - w) := by
    rw [abs_mul, abs_of_nonneg (by linarith : (0:ℚ) ≤ 1 - w)]
  have h4 : |b * w| = |b| * w := by rw [abs_mul, abs_of_nonneg h0]
  have h5 := mul_le_mul_of_nonneg_right ha (by linarith : (0:ℚ) ≤ 1 - w)
  have h6 := mul_le_mul_of_nonneg_right hb h0
  have h7 : max |a| |b| * (1 - w) + max |a| |b| * w = max |a| |b| := by ring
  linarith [h2, h3, h4]

theorem colorsys_v_m_diff (m1 m2 m1' m2' t : ℚ) :
    |colorsys_v m1' m2' t - colorsys_v m1 m2 t| ≤ max |m1' - m1| |m2' - m2| := by
  rw [colorsys_v_wfun m1' m2' t, colorsys_v_wfun m1 m2 t]
  have hw0 := wfun_nonneg (pymod t 1)
  have hw1 := wfun_le_one (pymod t 1)
  have he : m1' + (m2' - m1') * wfun (pymod t 1) - (m1 + (m2 - m1) * wfun (pymod t 1)) =
      (m1' - m1) * (1 - wfun (pymod t 1)) + (m2' - m2) * wfun (pymod t 1) := by ring
  rw [he]
  exact convex_comb_abs hw0 hw1

theorem colorsys_v_hue_diff (m1 m2 a b : ℚ) (hm : m1 ≤ m2) (h : |a - b| ≤ 1/720) :
    |colorsys_v m1 m2 a - colorsys_v m1 m2 b| ≤ (m2 - m1) * (1/120) := by
  rw [colorsys_v_wfun m1 m2 a, colorsys_v_wfun m1 m2 b]
  have he : m1 + (m2 - m1) * wfun (pymod a 1) - (m1 + (m2 - m1) * wfun (pymod b 1)) =
      (m2 - m1) * (wfun (pymod a 1) - wfun (pymod b 1)) := by ring
  rw [he, abs_mul, abs_of_nonneg (by linarith : (0:ℚ) ≤ m2 - m1)]
  exact mul_le_mul_of_nonneg_left (wfun_pymod_close h) (by linarith)

theorem colorsys_v_nonneg {m1 m2 : ℚ} (t : ℚ) (h0 : 0 ≤ m1) (h12 : m1 ≤ m2) :
    0 ≤ colorsys_v m1 m2 t := by
  rw [colorsys_v_wfun]
  have hw0 := wfun_nonneg (pymod t 1)
  nlinarith

/-! ### Region evaluation of `colorsys_v` -/

theorem pymod_one_add_one (t : ℚ) : pymod (t + 1) 1 = pymod t 1 := by
  have h := pymod_sub_mul t (y := 1) one_ne_zero (-1)
  rw [show t - 1 * ((-1 : ℤ) : ℚ) = t + 1 by push_cast; ring] at h
  exact h

theorem colorsys_v_add_one (m1 m2 t : ℚ) :
    colorsys_v m1 m2 (t + 1) = colorsys_v m1 m2 t := by
  rw [colorsys_v_wfun, colorsys_v_wfun, pymod_one_add_one]

theorem colorsys_v_sub_one (m1 m2 t : ℚ) :
    colorsys_v m1 m2 (t - 1) = colorsys_v m1 m2 t := by
  have h := colorsys_v_add_one m1 m2 (t - 1)
  rw [show t - 1 + 1 = t by ring] at h
  exact h.symm

theorem colorsys_v_ramp1 {m1 m2 t : ℚ} (h0 : 0 ≤ t) (h1 : t ≤ 1/6) :
    colorsys_v m1 m2 t = m1 + (m2 - m1) * (6 * t) := by
  rw [colorsys_v_wfun, pymod_eq_self h0 (by linarith), wfun_eq_ramp1 h0 h1]

theorem colorsys_v_plateau {m1 m2 t : ℚ} (h0 : 1/6 ≤ t) (h1 : t ≤ 1/2) :
    colorsys_v m1 m2 t = m2 := by
  rw [colorsys_v_wfun, pymod_eq_self (by linarith) (by linarith), wfun_eq_one h0 h1]
  ring

theorem colorsys_v_ramp2 {m1 m2 t : ℚ} (h0 : 1/2 ≤ t) (h1 : t ≤ 2/3) :
    colorsys_v m1 m2 t = m1 + (m2 - m1) * (4 - 6 * t) := by
  rw [colorsys_v_wfun, pymod_eq_self (by linarith) (by linarith), wfun_eq_ramp2 h0 h1]

theorem colorsys_v_low {m1 m2 t : ℚ} (h0 : 2/3 ≤ t) (h1 : t < 1) :
    colorsys_v m1 m2 t = m1 := by
  rw [colorsys_v_wfun, pymod_eq_self (by linarith) h1, wfun_eq_zero h0]
  ring

/-! ### Exact inversion of the hue derivation (chromatic case) -/

theorem channels_exact (x y z : ℚ) (hlt : min x (min y z) < max x (max y z)) :
    colorsys_v (min x (min y z)) (max x (max y z)) ((rgb_to_hls x y z).1 + 1/3) = x ∧
    colorsys_v (min x (min y z)) (max x (max y z)) ((rgb_to_hls x y z).1) = y ∧
    colorsys_v (min x (min y z)) (max x (max y z)) ((rgb_to_hls x y z).1 - 1/3) = z := by
  have hxM : x ≤ max x (max y z) := le_max_left _ _
  have hyM : y ≤ max x (max y z) := le_trans (le_max_left y z) (le_max_right x _)
  have hzM : z ≤ max x (max y z) := le_trans (le_max_right y z) (le_max_right x _)
  have hmx : min x (min y z) ≤ x := min_le_left _ _
  have hmy : min x (min y z) ≤ y := le_trans (min_le_right x _) (min_le_left y z)
  have hmz : min x (min y z) ≤ z := le_trans (min_le_right x _) (min_le_right y z)
  have hRpos : 0 < max x (max y z) - min x (min y z) := by linarith
  have hR0 : max x (max y z) - min x (min y z) ≠ 0 := ne_of_gt hRpos
  have hne : ¬(min x (min y z) = max x (max y z)) := ne_of_lt hlt
  rw [rgb_to_hls_h_eq x y z hne]
  by_cases hxmax : x = max x (max y z)
  · rw [if_pos hxmax]
    have e6 : ((max x (max y z) - z) / (max x (max y z) - min x (min y z)) -
        (max x (max y z) - y) / (max x (max y z) - min x (min y z))) / 6 =
        ((y - z) / (max x (max y z) - min x (min y z))) / 6 := by
      field_simp
      all_goals ring
    rw [e6]
    set q := (y - z) / (max x (max y z) - min x (min y z)) with hqdef
    have hq6 : q * (max x (max y z) - min x (min y z)) = y - z := by
      rw [hqdef]
      exact div_mul_cancel₀ _ hR0
    by_cases hyz : z ≤ y
    · -- x is max, z ≤ y: m = z, hue in [0, 1/6]
      have hminyz : min y z = z := min_eq_right hyz
      have hmz' : min x (min y z) = z := by
        rw [hminyz]
        apply min_eq_right
        rw [hxmax]
        exact hzM
      have hq0 : 0 ≤ q := by
        rw [hqdef]
        exact div_nonneg (by linarith) hRpos.le
      have hq1 : q ≤ 1 := by
        rw [hqdef, div_le_one hRpos]
        linarith [hmz', hyM]
      rw [pymod_eq_self (by linarith : (0:ℚ) ≤ q / 6) (by linarith : q / 6 < 1)]
      refine ⟨?_, ?_, ?_⟩
      · rw [colorsys_v_plateau (by linarith) (by linarith)]
        exact hxmax.symm
      · rw [colorsys_v_ramp1 (by linarith) (by linarith)]
        linear_combination hq6 + hmz'
      · rw [show q / 6 - 1/3 = (q / 6 + 2/3) - 1 by ring, colorsys_v_sub_one,
            colorsys_v_low (by linarith) (by linarith)]
        exact hmz'
    · -- x is max, y < z: m = y, hue in [5/6, 1)
      have hyz' : y < z := not_le.mp hyz
      have hminyz : min y z = y := min_eq_left hyz'.le
      have hmy' : min x (min y z) = y := by
        rw [hminyz]
        apply min_eq_right
        rw [hxmax]
        exact hyM
      have hqm1 : -1 ≤ q := by
        rw [hqdef, le_div_iff hRpos]
        linarith [hmy', hzM]
      have hqneg : q < 0 := div_neg_of_neg_of_pos (by linarith) hRpos
      rw [pymod_add_one (by linarith : (-1:ℚ) ≤ q / 6) (by linarith : q / 6 < 0)]
      refine ⟨?_, ?_, ?_⟩
      · rw [show q / 6 + 1 + 1/3 = (q / 6 + 1/3) + 1 by ring, colorsys_v_add_one,
            colorsys_v_plateau (by linarith) (by linarith)]
        exact hxmax.symm
      · rw [colorsys_v_low (by linarith) (by linarith)]
        exact hmy'
      · rw [show q / 6 + 1 - 1/3 = q / 6 + 2/3 by ring,
            colorsys_v_ramp2 (by linarith) (by linarith)]
        linear_combination hmy' - hq6
  · rw [if_neg hxmax]
    have hxM' : x < max x (max y z) := lt_of_le_of_ne hxM hxmax
    by_cases hymax : y = max x (max y z)
    · rw [if_pos hymax]
      have e6 : (2 + (max x (max y z) - x) / (max x (max y z) - min x (min y z)) -
          (max x (max y z) - z) / (max x (max y z) - min x (min y z))) / 6 =
          ((z - x) / (max x (max y z) - min x (min y z))) / 6 + 1/3 := by
        field_simp
        all_goals ring
      rw [e6]
      set q := (z - x) / (max x (max y z) - min x (min y z)) with hqdef
      have hq6 : q * (max x (max y z) - min x (min y z)) = z - x := by
        rw [hqdef]
        exact div_mul_cancel₀ _ hR0
      have hq1 : q ≤ 1 := by
        rw [hqdef, div_le_one hRpos]
        linarith
      have hqm1 : -1 ≤ q := by
        rw [hqdef, le_div_iff hRpos]
        linarith
      rw [pymod_eq_self (by linarith : (0:ℚ) ≤ q / 6 + 1/3) (by linarith : q / 6 + 1/3 < 1)]
      by_cases hxz : x ≤ z
      · -- y is max, x ≤ z: m = x
        have hmx' : min x (min y z) = x := by
          apply min_eq_left
          exact le_min (by linarith) hxz
        have hq0 : 0 ≤ q := by
          rw [hqdef]
          exact div_nonneg (by linarith) hRpos.le
        refine ⟨?_, ?_, ?_⟩
        · rw [show q / 6 + 1/3 + 1/3 = q / 6 + 2/3 by ring,
              colorsys_v_low (by linarith) (by linarith)]
          exact hmx'
        · rw [colorsys_v_plateau (by linarith) (by linarith)]
          exact hymax.symm
        · rw [show q / 6 + 1/3 - 1/3 = q / 6 by ring,
              colorsys_v_ramp1 (by linarith) (by linarith)]
          linear_combination hq6 + hmx'
      · -- y is max, z < x: m = z
        have hxz' : z < x := not_le.mp hxz
        have hminyz : min y z = z := by
          apply min_eq_right
          rw [hymax]
          exact hzM
        have hmz' : min x (min y z) = z := by
          rw [hminyz]
          exact min_eq_right hxz'.le
        have hqneg : q < 0 := div_neg_of_neg_of_pos (by linarith) hRpos
        refine ⟨?_, ?_, ?_⟩
        · rw [show q / 6 + 1/3 + 1/3 = q / 6 + 2/3 by ring,
              colorsys_v_ramp2 (by linarith) (by linarith)]
          linear_combination hmz' - hq6
        · rw [colorsys_v_plateau (by linarith) (by linarith)]
          exact hymax.symm
        · rw [show q / 6 + 1/3 - 1/3 = (q / 6 + 1) - 1 by ring, colorsys_v_sub_one,
              colorsys_v_low (by linarith) (by linarith)]
          exact hmz'
    · -- z is max
      rw [if_neg hymax]
      have hyM' : y < max x (max y z) := lt_of_le_of_ne hyM hymax
      have hzmax : z = max x (max y z) := by
        rcases max_choice x (max y z) with h | h
        · exact absurd h.symm hxmax
        · rcases max_choice y z with h2 | h2
          · exact absurd (h.trans h2).symm hymax
          · exact (h.trans h2).symm
      have e6 : (4 + (max x (max y z) - y) / (max x (max y z) - min x (min y z)) -
          (max x (max y z) - x) / (max x (max y z) - min x (min y z))) / 6 =
          ((x - y) / (max x (max y z) - min x (min y z))) / 6 + 2/3 := by
        field_simp
        all_goals ring
      rw [e6]
      set q := (x - y) / (max x (max y z) - min x (min y z)) with hqdef
      have hq6 : q * (max x (max y z) - min x (min y z)) = x - y := by
        rw [hqdef]
        exact div_mul_cancel₀ _ hR0
      have hq1 : q < 1 := by
        rw [hqdef, div_lt_one hRpos]
        linarith
      have hqm1 : -1 < q := by
        rw [hqdef, lt_div_iff hRpos]
        linarith
      rw [pymod_eq_self (by linarith : (0:ℚ) ≤ q / 6 + 2/3) (by linarith : q / 6 + 2/3 < 1)]
      by_cases hyx : y ≤ x
      · -- z is max, y ≤ x: m = y
        have hminyz : min y z = y := by
          apply min_eq_left
          rw [← hzmax] at hyM
          exact hyM
        have hmy' : min x (min y z) = y := by
          rw [hminyz]
          exact min_eq_right hyx
        have hq0 : 0 ≤ q := by
          rw [hqdef]
          exact div_nonneg (by linarith) hRpos.le
        refine ⟨?_, ?_, ?_⟩
        · rw [show q / 6 + 2/3 + 1/3 = q / 6 + 1 by ring, colorsys_v_add_one,
              colorsys_v_ramp1 (by linarith) (by linarith)]
          linear_combination hq6 + hmy'
        · rw [colorsys_v_low (by linarith) (by linarith)]
          exact hmy'
        · rw [show q / 6 + 2/3 - 1/3 = q / 6 + 1/3 by ring,
              colorsys_v_plateau (by linarith) (by linarith)]
          exact hzmax.symm
      · -- z is max, x < y: m = x
        have hyx' : x < y := not_le.mp hyx
        have hmx' : min x (min y z) = x := by
          apply min_eq_left
          apply le_min hyx'.le
          rw [← hzmax] at hxM
          exact hxM
        have hqneg : q < 0 := div_neg_of_neg_of_pos (by linarith) hRpos
        refine ⟨?_, ?_, ?_⟩
        · rw [show q / 6 + 2/3 + 1/3 = q / 6 + 1 by ring,
              colorsys_v_low (by linarith) (by linarith)]
          exact hmx'
        · rw [colorsys_v_ramp2 (by linarith) (by linarith)]
          linear_combination hmx' - hq6
        · rw [show q / 6 + 2/3 - 1/3 = q / 6 + 1/3 by ring,
              colorsys_v_plateau (by linarith) (by linarith)]
          exact hzmax.symm

/-! ### Stability of the m2/m1 reconstruction under quantization -/

theorem m2m1_close {M m L S s0 : ℚ}
    (hm0 : 0 ≤ m) (hmM : m < M) (hM1 : M ≤ 1)
    (hs0 : s0 = if (M + m) / 2 ≤ 1/2 then (M - m) / (M + m) else (M - m) / (2 - (M + m)))
    (hLc : |L - (M + m) / 2| ≤ 1/200) (hL0 : 0 ≤ L) (hL1 : L ≤ 1)
    (hSc : |S - s0| ≤ 1/200) (hS0 : 0 ≤ S) (hS1 : S ≤ 1)
    (hmixA : L ≤ 1/2 → ((M + m) / 2 ≤ 1/2 ∨ L = 1/2))
    (hmixB : (M + m) / 2 ≤ 1/2 → L ≤ 1/2) :
    |(if L ≤ 1/2 then L * (1 + S) else L + S - L * S) - M| ≤ 1/80 ∧
    |2 * L - (if L ≤ 1/2 then L * (1 + S) else L + S - L * S) - m| ≤ 1/80 := by
  have hMpos : 0 < M := lt_of_le_of_lt hm0 hmM
  have hsum : 0 < M + m := by linarith
  have h2sum : 0 < 2 - (M + m) := by linarith
  obtain ⟨hLl, hLr⟩ := abs_le.mp hLc
  obtain ⟨hSl, hSr⟩ := abs_le.mp hSc
  split_ifs with hL2
  · by_cases hls : (M + m) / 2 ≤ 1/2
    · -- both quantized and exact lightness in the low branch
      rw [if_pos hls] at hs0
      have hprod : s0 * (M + m) = M - m := by
        rw [hs0]
        exact div_mul_cancel₀ _ (ne_of_gt hsum)
      have hs0nn : 0 ≤ s0 := by
        rw [hs0]
        exact div_nonneg (by linarith) hsum.le
      have hs0le1 : s0 ≤ 1 := by
        rw [hs0, div_le_one hsum]
        linarith
      constructor
      · rw [abs_le]
        constructor <;> nlinarith [hprod]
      · rw [abs_le]
        constructor <;> nlinarith [hprod]
    · -- exact lightness in the high branch forces L = 1/2 exactly
      have hLhalf : L = 1/2 := by
        rcases hmixA hL2 with h | h
        · exact absurd h hls
        · exact h
      rw [if_neg hls] at hs0
      have hprod : s0 * (2 - (M + m)) = M - m := by
        rw [hs0]
        exact div_mul_cancel₀ _ (ne_of_gt h2sum)
      have hs0nn : 0 ≤ s0 := by
        rw [hs0]
        exact div_nonneg (by linarith) h2sum.le
      have hs0le1 : s0 ≤ 1 := by
        rw [hs0, div_le_one h2sum]
        linarith
      have hlsgt : 1/2 < (M + m) / 2 := not_le.mp hls
      constructor
      · rw [abs_le]
        constructor <;> nlinarith [hprod]
      · rw [abs_le]
        constructor <;> nlinarith [hprod]
  · -- quantized lightness in the high branch: exact lightness is too
    have hls : ¬((M + m) / 2 ≤ 1/2) := fun h => hL2 (hmixB h)
    rw [if_neg hls] at hs0
    have hlsgt : 1/2 < (M + m) / 2 := not_le.mp hls
    have hL2' : 1/2 < L := not_le.mp hL2
    have hprod : s0 * (2 - (M + m)) = M - m := by
      rw [hs0]
      exact div_mul_cancel₀ _ (ne_of_gt h2sum)
    have hs0nn : 0 ≤ s0 := by
      rw [hs0]
      exact div_nonneg (by linarith) h2sum.le
    have hs0le1 : s0 ≤ 1 := by
      rw [hs0, div_le_one h2sum]
      linarith
    constructor
    · rw [abs_le]
      constructor <;> nlinarith [hprod]
    · rw [abs_le]
      constructor <;> nlinarith [hprod]

theorem channel_combine {m M m1q m2q ch t t0 : ℚ}
    (hex : colorsys_v m M t0 = ch)
    (hm1 : |m1q - m| ≤ 1/80) (hm2 : |m2q - M| ≤ 1/80)
    (hmM : m ≤ M) (hR1 : M - m ≤ 1)
    (ht : |t - t0| ≤ 1/720) :
    |colorsys_v m1q m2q t - ch| ≤ 1/48 := by
  have h1 := colorsys_v_m_diff m M m1q m2q t
  have h2 := colorsys_v_hue_diff m M t t0 hmM ht
  have hmax : max |m1q - m| |m2q - M| ≤ 1/80 := max_le hm1 hm2
  have hsplit : colorsys_v m1q m2q t - ch =
      (colorsys_v m1q m2q t - colorsys_v m M t) +
      (colorsys_v m M t - colorsys_v m M t0) := by
    rw [hex]
    ring
  rw [hsplit]
  have habs := abs_add (colorsys_v m1q m2q t - colorsys_v m M t)
    (colorsys_v m M t - colorsys_v m M t0)
  have hhue : (M - m) * (1/120) ≤ 1/120 := by nlinarith
  linarith

theorem m1m2_props {L S : ℚ} (hL0 : 0 ≤ L) (hL1 : L ≤ 1) (hS0 : 0 ≤ S) (hS1 : S ≤ 1) :
    0 ≤ 2*L - (if L ≤ 1/2 then L * (1 + S) else L + S - L * S) ∧
    2*L - (if L ≤ 1/2 then L * (1 + S) else L + S - L * S) ≤
      (if L ≤ 1/2 then L * (1 + S) else L + S - L * S) := by
  split_ifs with h2
  · constructor <;> nlinarith
  · constructor <;> nlinarith

/-! ### Master bound: quantize-then-invert stays within 1/48 per channel -/

theorem roundtrip_norm_close (x y z H L S : ℚ)
    (hx0 : 0 ≤ x) (hx1 : x ≤ 1) (hy0 : 0 ≤ y) (hy1 : y ≤ 1)
    (hz0 : 0 ≤ z) (hz1 : z ≤ 1)
    (hH : H = ((pytrunc ((rgb_to_hls x y z).1 * 360 + 1/2) : ℤ) : ℚ) / 360)
    (hS : S = ((pytrunc ((rgb_to_hls x y z).2.2 * 100 + 1/2) : ℤ) : ℚ) / 100)
    (hL : L = ((pytrunc ((rgb_to_hls x y z).2.1 * 100 + 1/2) : ℤ) : ℚ) / 100) :
    (0 ≤ (hls_to_rgb H L S).1 ∧ |(hls_to_rgb H L S).1 - x| ≤ 1/48) ∧
    (0 ≤ (hls_to_rgb H L S).2.1 ∧ |(hls_to_rgb H L S).2.1 - y| ≤ 1/48) ∧
    (0 ≤ (hls_to_rgb H L S).2.2 ∧ |(hls_to_rgb H L S).2.2 - z| ≤ 1/48) := by
  have hxM : x ≤ max x (max y z) := le_max_left _ _
  have hyM : y ≤ max x (max y z) := le_trans (le_max_left y z) (le_max_right x _)
  have hzM : z ≤ max x (max y z) := le_trans (le_max_right y z) (le_max_right x _)
  have hmx : min x (min y z) ≤ x := min_le_left _ _
  have hmy : min x (min y z) ≤ y := le_trans (min_le_right x _) (min_le_left y z)
  have hmz : min x (min y z) ≤ z := le_trans (min_le_right x _) (min_le_right y z)
  have hmm : min x (min y z) ≤ max x (max y z) := le_trans hmx hxM
  have hM1 : max x (max y z) ≤ 1 := max_le hx1 (max_le hy1 hz1)
  have hm0 : 0 ≤ min x (min y z) := le_min hx0 (le_min hy0 hz0)
  obtain ⟨hh0, hh1⟩ := rgb_to_hls_h_mem x y z
  obtain ⟨hl0, hl1⟩ := rgb_to_hls_l_mem hx0 hx1 hy0 hy1 hz0 hz1
  obtain ⟨hs0, hs1⟩ := rgb_to_hls_s_mem hx0 hx1 hy0 hy1 hz0 hz1
  have hHc : |H - (rgb_to_hls x y z).1| ≤ 1/720 := by
    have hr := round_close (t := (rgb_to_hls x y z).1 * 360) (by nlinarith)
    obtain ⟨h1, h2⟩ := abs_le.mp hr
    rw [hH, abs_le]
    constructor <;> linarith
  have hSc : |S - (rgb_to_hls x y z).2.2| ≤ 1/200 := by
    have hr := round_close (t := (rgb_to_hls x y z).2.2 * 100) (by nlinarith)
    obtain ⟨h1, h2⟩ := abs_le.mp hr
    rw [hS, abs_le]
    constructor <;> linarith
  have hLc : |L - (rgb_to_hls x y z).2.1| ≤ 1/200 := by
    have hr := round_close (t := (rgb_to_hls x y z).2.1 * 100) (by nlinarith)
    obtain ⟨h1, h2⟩ := abs_le.mp hr
    rw [hL, abs_le]
    constructor <;> linarith
  have hLq := round_mem (t := (rgb_to_hls x y z).2.1 * 100) (B := 100)
    (by nlinarith) (by push_cast; nlinarith)
  have hSq := round_mem (t := (rgb_to_hls x y z).2.2 * 100) (B := 100)
    (by nlinarith) (by push_cast; nlinarith)
  have hL0 : 0 ≤ L := by
    rw [hL]
    have h := hLq.1
    have : (0:ℚ) ≤ ((pytrunc ((rgb_to_hls x y z).2.1 * 100 + 1/2) : ℤ) : ℚ) := by
      exact_mod_cast h
    linarith
  have hL1' : L ≤ 1 := by
    rw [hL]
    have h := hLq.2
    have : ((pytrunc ((rgb_to_hls x y z).2.1 * 100 + 1/2) : ℤ) : ℚ) ≤ 100 := by
      exact_mod_cast h
    linarith
  have hS0 : 0 ≤ S := by
    rw [hS]
    have h := hSq.1
    have : (0:ℚ) ≤ ((pytrunc ((rgb_to_hls x y z).2.2 * 100 + 1/2) : ℤ) : ℚ) := by
      exact_mod_cast h
    linarith
  have hS1' : S ≤ 1 := by
    rw [hS]
    have h := hSq.2
    have : ((pytrunc ((rgb_to_hls x y z).2.2 * 100 + 1/2) : ℤ) : ℚ) ≤ 100 := by
      exact_mod_cast h
    linarith
  by_cases hSz : S = 0
  · -- quantized saturation is zero: the inverse returns the gray (L, L, L)
    have hgray : hls_to_rgb H L S = (L, L, L) := by
      simp only [hls_to_rgb, if_pos hSz]
    have hchan : |L - x| ≤ 1/48 ∧ |L - y| ≤ 1/48 ∧ |L - z| ≤ 1/48 := by
      obtain ⟨hLcl, hLcr⟩ := abs_le.mp hLc
      rw [rgb_to_hls_l_eq x y z] at hLcl hLcr
      by_cases hac : min x (min y z) = max x (max y z)
      · refine ⟨?_, ?_, ?_⟩ <;> rw [abs_le] <;> constructor <;> linarith [hac]
      · have hlt : min x (min y z) < max x (max y z) := lt_of_le_of_ne hmm hac
        have hMpos : 0 < max x (max y z) := lt_of_le_of_lt hm0 hlt
        have hsum : 0 < max x (max y z) + min x (min y z) := by linarith
        have h2sum : 0 < 2 - (max x (max y z) + min x (min y z)) := by linarith
        -- the quantized saturation being zero bounds the exact saturation
        have hsmall : (rgb_to_hls x y z).2.2 < 1/200 := by
          have hq0' : pytrunc ((rgb_to_hls x y z).2.2 * 100 + 1/2) = 0 := by
            have hSz' := hSz
            rw [hS, div_eq_zero_iff] at hSz'
            rcases hSz' with h | h
            · exact_mod_cast h
            · exact absurd h (by norm_num)
          have hfl : ⌊(rgb_to_hls x y z).2.2 * 100 + 1/2⌋ = 0 := by
            rw [← pytrunc_eq_floor (by nlinarith)]
            exact hq0'
          have hmem := Int.floor_eq_zero_iff.mp hfl
          have hlt1 : (rgb_to_hls x y z).2.2 * 100 + 1/2 < 1 := hmem.2
          linarith
        have hseq := rgb_to_hls_s_eq x y z hac
        have hR200 : max x (max y z) - min x (min y z) ≤ 1/200 := by
          by_cases hl2 : (max x (max y z) + min x (min y z)) / 2 ≤ 1/2
          · rw [if_pos hl2] at hseq
            have hprod : (rgb_to_hls x y z).2.2 * (max x (max y z) + min x (min y z)) =
                max x (max y z) - min x (min y z) := by
              rw [hseq]
              exact div_mul_cancel₀ _ (ne_of_gt hsum)
            nlinarith [hs0]
          · rw [if_neg hl2] at hseq
            have hl2' : 1/2 < (max x (max y z) + min x (min y z)) / 2 := not_le.mp hl2
            have hprod : (rgb_to_hls x y z).2.2 *
                (2 - (max x (max y z) + min x (min y z))) =
                max x (max y z) - min x (min y z) := by
              rw [hseq]
              exact div_mul_cancel₀ _ (ne_of_gt h2sum)
            nlinarith [hs0]
        refine ⟨?_, ?_, ?_⟩ <;> rw [abs_le] <;> constructor <;> linarith
    refine ⟨⟨?_, ?_⟩, ⟨?_, ?_⟩, ⟨?_, ?_⟩⟩ <;> rw [hgray]
    · exact hL0
    · exact hchan.1
    · exact hL0
    · exact hchan.2.1
    · exact hL0
    · exact hchan.2.2
  · -- quantized saturation nonzero: the original must be chromatic
    have hac : ¬(min x (min y z) = max x (max y z)) := by
      intro h
      apply hSz
      have hpz : pytrunc ((0:ℚ) * 100 + 1/2) = 0 := by
        rw [pytrunc_eq_floor (by norm_num)]
        norm_num
      rw [hS, rgb_to_hls_achro x y z h]
      show ((pytrunc ((0:ℚ) * 100 + 1/2) : ℤ) : ℚ) / 100 = 0
      rw [hpz]
      norm_num
    have hchrom : min x (min y z) < max x (max y z) := lt_of_le_of_ne hmm hac
    have hLc' : |L - (max x (max y z) + min x (min y z)) / 2| ≤ 1/200 := by
      have h := hLc
      rw [rgb_to_hls_l_eq x y z] at h
      exact h
    have hflq : pytrunc ((rgb_to_hls x y z).2.1 * 100 + 1/2) =
        ⌊(rgb_to_hls x y z).2.1 * 100 + 1/2⌋ := pytrunc_eq_floor (by linarith)
    have hmixB : (max x (max y z) + min x (min y z)) / 2 ≤ 1/2 → L ≤ 1/2 := by
      intro h
      have hl₀ : (rgb_to_hls x y z).2.1 ≤ 1/2 := by
        rw [rgb_to_hls_l_eq x y z]
        exact h
      have hfl50 : ⌊(rgb_to_hls x y z).2.1 * 100 + 1/2⌋ ≤ 50 := by
        have hle : (rgb_to_hls x y z).2.1 * 100 + 1/2 ≤ 101/2 := by linarith
        calc ⌊(rgb_to_hls x y z).2.1 * 100 + 1/2⌋ ≤ ⌊(101/2 : ℚ)⌋ :=
              Int.floor_le_floor hle
          _ = 50 := by norm_num
      rw [hL, hflq]
      have hc : ((⌊(rgb_to_hls x y z).2.1 * 100 + 1/2⌋ : ℤ) : ℚ) ≤ 50 := by
        exact_mod_cast hfl50
      linarith
    have hmixA : L ≤ 1/2 →
        ((max x (max y z) + min x (min y z)) / 2 ≤ 1/2 ∨ L = 1/2) := by
      intro hhalf
      by_cases hl₀ : (max x (max y z) + min x (min y z)) / 2 ≤ 1/2
      · exact Or.inl hl₀
      · right
        have hl₀' : 1/2 < (rgb_to_hls x y z).2.1 := by
          rw [rgb_to_hls_l_eq x y z]
          exact not_le.mp hl₀
        have hlow : (49:ℚ) < ((⌊(rgb_to_hls x y z).2.1 * 100 + 1/2⌋ : ℤ) : ℚ) := by
          have := Int.lt_floor_add_one ((rgb_to_hls x y z).2.1 * 100 + 1/2)
          linarith
        have hup : ((⌊(rgb_to_hls x y z).2.1 * 100 + 1/2⌋ : ℤ) : ℚ) ≤ 50 := by
          rw [hL, hflq] at hhalf
          linarith
        have h49 : (49:ℤ) < ⌊(rgb_to_hls x y z).2.1 * 100 + 1/2⌋ := by exact_mod_cast hlow
        have h50 : ⌊(rgb_to_hls x y z).2.1 * 100 + 1/2⌋ ≤ 50 := by exact_mod_cast hup
        have h50' : ⌊(rgb_to_hls x y z).2.1 * 100 + 1/2⌋ = 50 := by omega
        rw [hL, hflq, h50']
        norm_num
    obtain ⟨hm1nn, hm12⟩ := m1m2_props hL0 hL1' hS0 hS1'
    obtain ⟨hm2b, hm1b⟩ := m2m1_close hm0 hchrom hM1 (rgb_to_hls_s_eq x y z hac)
      hLc' hL0 hL1' hSc hS0 hS1' hmixA hmixB
    have hR1 : max x (max y z) - min x (min y z) ≤ 1 := by linarith
    have ht1 : |H + 1/3 - ((rgb_to_hls x y z).1 + 1/3)| ≤ 1/720 := by
      rw [show H + 1/3 - ((rgb_to_hls x y z).1 + 1/3) = H - (rgb_to_hls x y z).1 by ring]
      exact hHc
    have ht3 : |H - 1/3 - ((rgb_to_hls x y z).1 - 1/3)| ≤ 1/720 := by
      rw [show H - 1/3 - ((rgb_to_hls x y z).1 - 1/3) = H - (rgb_to_hls x y z).1 by ring]
      exact hHc
    obtain ⟨hex, hey, hez⟩ := channels_exact x y z hchrom
    simp only [hls_to_rgb, if_neg hSz]
    refine ⟨⟨?_, ?_⟩, ⟨?_, ?_⟩, ⟨?_, ?_⟩⟩
    · exact colorsys_v_nonneg _ hm1nn hm12
    · exact channel_combine hex hm1b hm2b hmm hR1 ht1
    · exact colorsys_v_nonneg _ hm1nn hm12
    · exact channel_combine hey hm1b hm2b hmm hR1 hHc
    · exact colorsys_v_nonneg _ hm1nn hm12
    · exact channel_combine hez hm1b hm2b hmm hR1 ht3

theorem byte_close {v xq : ℚ} {C : ℤ} (hv0 : 0 ≤ v) (hc : |v - xq| ≤ 1/48)
    (hC : xq = (C : ℚ) / 255) : |pytrunc (v * 255 + 1/2) - C| ≤ 5 := by
  rw [pytrunc_eq_floor (by linarith)]
  obtain ⟨hcl, hcr⟩ := abs_le.mp hc
  have hC' : (C : ℚ) = 255 * xq := by rw [hC]; ring
  have hfle : (⌊v * 255 + 1/2⌋ : ℚ) ≤ v * 255 + 1/2 := Int.floor_le _
  have hfgt : v * 255 + 1/2 < (⌊v * 255 + 1/2⌋ : ℚ) + 1 := Int.lt_floor_add_one _
  have h1 : ((⌊v * 255 + 1/2⌋ - C : ℤ) : ℚ) < 6 := by push_cast; linarith
  have h2 : (-6 : ℚ) < ((⌊v * 255 + 1/2⌋ - C : ℤ) : ℚ) := by push_cast; linarith
  have h1' : ⌊v * 255 + 1/2⌋ - C < 6 := by exact_mod_cast h1
  have h2' : -6 < ⌊v * 255 + 1/2⌋ - C := by exact_mod_cast h2
  rw [abs_le]
  omega

/-! ### C1: RGB → HSL → RGB round trip (corrected: within ±5, not ±1) -/

/-- C1 counterexample: the round trip moves `(2, 228, 230)` to
`(2, 223, 227)` — the green channel is off by 5, far beyond the claimed
per-channel tolerance of 1. -/
theorem roundtrip_counterexample :
    rgb_to_hsl 2 228 230 = ⟨181, 98, 45⟩ ∧
    hsl_to_rgb 181 98 45 = ⟨2, 223, 227⟩ ∧
    ¬(|(hsl_to_rgb (rgb_to_hsl 2 228 230).h (rgb_to_hsl 2 228 230).s
        (rgb_to_hsl 2 228 230).l).g - 228| ≤ 1) := by
  have e1 : rgb_to_hsl 2 228 230 = ⟨181, 98, 45⟩ := by
    norm_num [rgb_to_hsl, rgb_to_hls, pymod, pytrunc, max_def, min_def, HSL.mk.injEq]
  have e2 : hsl_to_rgb 181 98 45 = ⟨2, 223, 227⟩ := by
    norm_num [hsl_to_rgb, hls_to_rgb, colorsys_v, pymod, pytrunc, RGB.mk.injEq]
  refine ⟨e1, e2, ?_⟩
  rw [e1]
  show ¬(|(hsl_to_rgb 181 98 45).g - 228| ≤ 1)
  rw [e2]
  norm_num

/-- C1 amended: for every integer RGB triple in `[0, 255]³`, the round
trip `hsl_to_rgb (rgb_to_hsl r g b)` returns each channel within ±5 of
the original (and 5 is attained, see the counterexample). -/
theorem rgb_hsl_roundtrip_within_five (r g b : ℤ)
    (hr0 : 0 ≤ r) (hr1 : r ≤ 255) (hg0 : 0 ≤ g) (hg1 : g ≤ 255)
    (hb0 : 0 ≤ b) (hb1 : b ≤ 255) :
    |(hsl_to_rgb (rgb_to_hsl r g b).h (rgb_to_hsl r g b).s (rgb_to_hsl r g b).l).r - r| ≤ 5 ∧
    |(hsl_to_rgb (rgb_to_hsl r g b).h (rgb_to_hsl r g b).s (rgb_to_hsl r g b).l).g - g| ≤ 5 ∧
    |(hsl_to_rgb (rgb_to_hsl r g b).h (rgb_to_hsl r g b).s (rgb_to_hsl r g b).l).b - b| ≤ 5 := by
  obtain ⟨hx0, hx1⟩ := norm_unit_mem hr0 hr1
  obtain ⟨hy0, hy1⟩ := norm_unit_mem hg0 hg1
  obtain ⟨hz0, hz1⟩ := norm_unit_mem hb0 hb1
  have key := roundtrip_norm_close ((r:ℚ)/255) ((g:ℚ)/255) ((b:ℚ)/255)
    (((pytrunc ((rgb_to_hls ((r:ℚ)/255) ((g:ℚ)/255) ((b:ℚ)/255)).1 * 360 + 1/2) : ℤ) : ℚ) / 360)
    (((pytrunc ((rgb_to_hls ((r:ℚ)/255) ((g:ℚ)/255) ((b:ℚ)/255)).2.1 * 100 + 1/2) : ℤ) : ℚ) / 100)
    (((pytrunc ((rgb_to_hls ((r:ℚ)/255) ((g:ℚ)/255) ((b:ℚ)/255)).2.2 * 100 + 1/2) : ℤ) : ℚ) / 100)
    hx0 hx1 hy0 hy1 hz0 hz1 rfl rfl rfl
  exact ⟨byte_close key.1.1 key.1.2 rfl, byte_close key.2.1.1 key.2.1.2 rfl,
    byte_close key.2.2.1 key.2.2.2 rfl⟩

/-- Witness for the amended C1 at the concrete input `(2, 228, 230)`. -/
theorem rgb_hsl_roundtrip_within_five_witness :
    ((0:ℤ) ≤ 2 ∧ (2:ℤ) ≤ 255 ∧ (0:ℤ) ≤ 228 ∧ (228:ℤ) ≤ 255 ∧ (0:ℤ) ≤ 230 ∧ (230:ℤ) ≤ 255) ∧
    |(hsl_to_rgb (rgb_to_hsl 2 228 230).h (rgb_to_hsl 2 228 230).s
        (rgb_to_hsl 2 228 230).l).g - 228| ≤ 5 :=
  ⟨⟨by norm_num, by norm_num, by norm_num, by norm_num, by norm_num, by norm_num⟩,
   (rgb_hsl_roundtrip_within_five 2 228 230 (by norm_num) (by norm_num) (by norm_num)
     (by norm_num) (by norm_num) (by norm_num)).2.1⟩

end Palettepal
